import Mathlib

/-!
# zeromerge: combine two files with empty (zero) blocks

A shallow embedding of `zeromerge.c` and the properties of its merge pass.

The program is a single `main`.  Its effect on the outside world goes through
`fopen`, `stat`, `fread`, `ferror`, `feof`, `fwrite` and, at every exit, the
`fclose` of `clean_exit`; these are modelled below on explicit stream states.  The loop of `main` is modelled with a fuel
argument (one unit per iteration of the loop body); `none` means the fuel ran
out before the loop ended.
-/

namespace Zeromerge

/-- One byte, the content of a `char` cell of `buf1` / `buf2`. -/
abbrev Byte := Fin 256

/-- Block of `zeromerge.c` line 18: `#define READSIZE 1048576`. -/
def READSIZE : Nat := 1048576

/-- What lies behind a path that is opened for reading: the bytes the stream
will deliver, and the number of bytes after which the device reports an I/O
fault (`none`: it never does). -/
structure Source where
  data : List Byte
  fault : Option Nat
deriving DecidableEq, Repr

/-- An input `FILE *` (`file1`, `file2`): the bytes not yet delivered, the read
position, the bytes left before the device faults, and the end-of-file and
error indicators. -/
structure FILE where
  data : List Byte
  pos : Nat
  fault : Option Nat
  eof : Bool
  err : Bool
deriving DecidableEq, Repr

/-- The output `FILE *` (`file3`), a fully buffered stream: the bytes it has
taken from `fwrite` so far (those that have reached the device and, behind
them, those still in the stdio buffer), and the number of bytes the device
holds for this file at most (`none`: no limit). -/
structure OFILE where
  out : List Byte
  room : Option Nat
deriving DecidableEq, Repr

/-- Opening a path with `fopen(path, FOPEN_R)`: `NULL` when there is nothing to
open, else a stream at position 0 with clear indicators. -/
def fopen_r : Option Source → Option FILE
  | none => none
  | some s => some { data := s.data, pos := 0, fault := s.fault, eof := false, err := false }

/-- Opening a path with `fopen(path, FOPEN_W)`: `NULL` when it cannot be
created, else an empty stream (the file is created or truncated). -/
def fopen_w : Option (Option Nat) → Option OFILE
  | none => none
  | some room => some { out := [], room := room }

/-- Reading without a device fault: `fread(&buf, 1, n, f)` delivers the next
`n` bytes, or all that is left when fewer are left, and then sets the
end-of-file indicator. -/
def fread_ok (n : Nat) (f : FILE) : List Byte × FILE :=
  (f.data.take n,
   { f with data := f.data.drop n,
            pos := f.pos + (f.data.take n).length,
            fault := f.fault.map (fun k => k - (f.data.take n).length),
            eof := f.eof || decide (f.data.length < n) })

/-- The model of `fread(&buf, 1, n, f)`: the bytes placed in the buffer (the
return value is their number) and the stream afterwards.  When the device
faults before `n` bytes and before the end of the data, the bytes up to the
fault are delivered and the error indicator is set. -/
def fread (n : Nat) (f : FILE) : List Byte × FILE :=
  match f.fault with
  | none => fread_ok n f
  | some k =>
    if k < n ∧ k ≤ f.data.length then
      (f.data.take k,
       { f with data := f.data.drop k, pos := f.pos + k, fault := some 0, err := true })
    else fread_ok n f

/-- Model of `ferror(f)`. -/
def ferror (f : FILE) : Bool := f.err

/-- Model of `feof(f)`. -/
def feof (f : FILE) : Bool := f.eof

/-- The size of the stdio buffer of `file3`.  The program never calls
`setvbuf`, so the stream is fully buffered with the buffer the C library gives
it; 4096, a common block size, stands for it. -/
def stdio_bufsize : Nat := 4096

/-- The model of `fwrite(&buf, 1, n, f)` on the buffered stream: the return
value and the stream afterwards.  The stream takes the bytes; the whole blocks
of `stdio_bufsize` bytes it then holds must go to the device within the call
and the rest stays in the stdio buffer.  When the device has room for these
blocks the call returns `n`, also when the bytes left in the buffer will not
fit on the device later; when it has not, the bytes are taken up to the room of
the device and the call returns fewer than `n`. -/
def fwrite (buf : List Byte) (n : Nat) (f : OFILE) : Nat × OFILE :=
  match f.room with
  | none => ((buf.take n).length, { f with out := f.out ++ buf.take n })
  | some r =>
    if ((f.out.length + (buf.take n).length) / stdio_bufsize) * stdio_bufsize ≤ r then
      ((buf.take n).length, { f with out := f.out ++ buf.take n })
    else
      ((buf.take (min n (r - f.out.length))).length,
       { f with out := f.out ++ buf.take (min n (r - f.out.length)) })

/-- The model of `fclose(file3)`, lines 31-37: the bytes still in the stdio
buffer go to the device as far as it has room, and `clean_exit` drops the
result of the call.  The value is the content of the output file afterwards. -/
def fclose_out (f : OFILE) : List Byte :=
  match f.room with
  | none => f.out
  | some r => f.out.take r

/-- The ways `main` ends: the two informational exits, the normal end of the
loop, and the error labels of `main`. -/
inductive Exit where
  | help
  | version
  | success
  | error_different
  | error_argcount
  | error_file1
  | error_file2
  | error_file3
  | error_file_sizes
  | error_short_read
  | error_short_write
deriving DecidableEq, Repr

/-- The exit status: `EXIT_SUCCESS` is 0, `EXIT_FAILURE` is 1. -/
def Exit.code : Exit → Nat
  | .help => 0
  | .version => 0
  | .success => 0
  | _ => 1

/-- The three global stream handles (`NULL` is `none`) and, as a ghost
counter, the number of completed iterations of the main loop. -/
structure World where
  file1 : Option FILE
  file2 : Option FILE
  file3 : Option OFILE
  iters : Nat
deriving DecidableEq, Repr

/-- The inner loop of `main`, lines 106-112: `while (read1--)` visits the
indices `read1 - 1` down to `0`; at a pair of different non-zero bytes it jumps
to `error_different` (the index is returned), else it stores the bitwise OR in
`buf1`.  Only the `read1` bytes just read are kept in the model of a buffer. -/
def merge_block (buf2 : List Byte) : Nat → List Byte → Except Nat (List Byte)
  | 0, buf1 => .ok buf1
  | i + 1, buf1 =>
    if buf1.getD i 0 ≠ buf2.getD i 0 ∧ buf1.getD i 0 ≠ 0 ∧ buf2.getD i 0 ≠ 0 then
      .error i
    else
      merge_block buf2 i (buf1.set i (buf1.getD i 0 ||| buf2.getD i 0))

/-- The state at the head of the main loop. -/
structure Loop where
  file1 : FILE
  file2 : FILE
  file3 : OFILE
  remain : Int
  iters : Nat
deriving DecidableEq, Repr

/-- The handles as they are when the program exits from inside the loop. -/
def Loop.world (s : Loop) : World :=
  { file1 := some s.file1, file2 := some s.file2, file3 := some s.file3, iters := s.iters }

/-- What one pass through the body of the main loop leads to: the program
exits (a jump to an error label, or the `break` that is followed by
`exit(EXIT_SUCCESS)`), or control returns to the loop condition. -/
inductive Step where
  | exit : Exit → World → Step
  | next : Loop → Step
deriving DecidableEq, Repr

/-- The body of the main loop, lines 99-116, reading `rs` bytes at a time
(`READSIZE` in the program). -/
def loop_body (rs : Nat) (s : Loop) : Step :=
  let r1 := fread rs s.file1
  let r2 := fread rs s.file2
  let s1 : Loop := { s with file1 := r1.2, file2 := r2.2 }
  if r1.1.length ≠ r2.1.length then .exit .error_short_read s1.world
  else if ferror r1.2 then .exit .error_file1 s1.world
  else if ferror r2.2 then .exit .error_file2 s1.world
  else
    match merge_block r2.1 r1.1.length r1.1 with
    | .error _ => .exit .error_different s1.world
    | .ok buf1 =>
      let w := fwrite buf1 r2.1.length s.file3
      let s2 : Loop := { s1 with file3 := w.2 }
      if w.1 ≠ r2.1.length then .exit .error_short_write s2.world
      else
        let s3 : Loop :=
          { s2 with remain := s.remain - (r2.1.length : Int), iters := s.iters + 1 }
        if feof r1.2 && feof r2.2 then .exit .success s3.world
        else .next s3

/-- The main loop, lines 97-118: `while (remain > 0)` around `loop_body`, then
`exit(EXIT_SUCCESS)`.  One unit of fuel is used per pass through the body. -/
def main_loop (rs : Nat) : Nat → Loop → Option (Exit × World)
  | 0, s => if s.remain > 0 then none else some (.success, s.world)
  | fuel + 1, s =>
    if s.remain > 0 then
      match loop_body rs s with
      | .exit e w => some (e, w)
      | .next s1 => main_loop rs fuel s1
    else some (.success, s.world)

/-- What the system answers to the five calls `main` makes before the loop:
the two `fopen` for reading, the two `stat` (the `st_size` found, `none` when
the call fails) and the `fopen` for writing (`none` when the output cannot be
created, else the number of bytes the device holds for it, `none` for no
limit). -/
structure Env where
  open1 : Option Source
  open2 : Option Source
  stat1 : Option Int
  stat2 : Option Int
  open3 : Option (Option Nat)

/-- No handle is open. -/
def World.init : World := { file1 := none, file2 := none, file3 := none, iters := 0 }

/-- The element `argv[1]`, when there is one. -/
def argv1 (argv : List String) : Option String := argv.get? 1

/-- The program `main`, with the read size and the loop fuel as parameters;
`argc` is the length of `argv`. -/
def main (rs fuel : Nat) (argv : List String) (env : Env) : Option (Exit × World) :=
  if argv.length ≥ 2 ∧ (argv1 argv = some "-h" ∨ argv1 argv = some "--help") then
    some (.help, World.init)
  else if argv.length ≥ 2 ∧
      (argv1 argv = some "-v" ∨ argv1 argv = some "-V" ∨ argv1 argv = some "--version") then
    some (.version, World.init)
  else if argv.length ≠ 4 then some (.error_argcount, World.init)
  else
    match fopen_r env.open1 with
    | none => some (.error_file1, World.init)
    | some f1 =>
      match fopen_r env.open2 with
      | none => some (.error_file2, { World.init with file1 := some f1 })
      | some f2 =>
        let w : World := { World.init with file1 := some f1, file2 := some f2 }
        match env.stat1 with
        | none => some (.error_file1, w)
        | some n1 =>
          match env.stat2 with
          | none => some (.error_file2, w)
          | some n2 =>
            if n1 ≠ n2 then some (.error_file_sizes, w)
            else
              match fopen_w env.open3 with
              | none => some (.error_file3, w)
              | some f3 =>
                main_loop rs fuel
                  { file1 := f1, file2 := f2, file3 := f3, remain := n1, iters := 0 }

/-- The program as shipped: `main` with the read size `READSIZE`. -/
def zeromerge (fuel : Nat) (argv : List String) (env : Env) : Option (Exit × World) :=
  main READSIZE fuel argv env

/-! ## Vocabulary of the statements -/

/-- Two bytes conflict when both are non-zero and they differ. -/
def conflict (a b : Byte) : Prop := a ≠ 0 ∧ b ≠ 0 ∧ a ≠ b

instance (a b : Byte) : Decidable (conflict a b) := by
  unfold conflict
  infer_instance

/-- Position `i` of the two sequences holds a conflict. -/
def conflict_at (A B : List Byte) (i : Nat) : Prop := conflict (A.getD i 0) (B.getD i 0)

instance (A B : List Byte) (i : Nat) : Decidable (conflict_at A B i) := by
  unfold conflict_at
  infer_instance

/-- The byte-wise bitwise OR of two sequences. -/
def or_bytes (A B : List Byte) : List Byte := List.zipWith (fun a b => a ||| b) A B

/-- The number of passes through the loop body for `n` bytes read `rs` at a
time. -/
def passes (rs n : Nat) : Nat := (n + rs - 1) / rs

/-- The bytes the output stream has taken from `fwrite` by the end of the run
(`none` when the program never opened it).  On a device without limit these
are the bytes of the output file. -/
def World.sink (w : World) : Option (List Byte) := w.file3.map (fun f => f.out)

/-- The function `clean_exit`, lines 31-37, which `atexit` runs at every exit:
it closes the handles that are open.  The value is the content of the output
file afterwards (`none` when the program never opened it). -/
def clean_exit (w : World) : Option (List Byte) := w.file3.map fclose_out

/-- The values of `argv[1]` on which `main` prints its banner and exits before
it looks at the number of arguments. -/
def info_flags : List String := ["-h", "--help", "-v", "-V", "--version"]

/-- An environment without surprises: the first path holds `A`, the second
holds `B`, `stat` reports their true lengths, no device ever faults, and the
output can be created and takes every byte. -/
def plain_env (A B : List Byte) : Env :=
  { open1 := some ⟨A, none⟩, open2 := some ⟨B, none⟩,
    stat1 := some (A.length : Int), stat2 := some (B.length : Int), open3 := some none }


/-- The zero-wildcard rule of the specification for one position: when either
byte is zero the output takes the other byte (zero when both are zero), equal
bytes give that byte, and two different non-zero bytes cannot be merged. -/
def merge_byte_spec (a b : Byte) : Option Byte :=
  if b = 0 then some a
  else if a = 0 then some b
  else if a = b then some a
  else none

/-- The one-shot merge of the specification: the zero-wildcard rule at every
position of two whole sequences of equal length, failing when some position
cannot be merged. -/
def merge_spec : List Byte → List Byte → Option (List Byte)
  | [], [] => some []
  | a :: as, b :: bs =>
    match merge_byte_spec a b, merge_spec as bs with
    | some c, some cs => some (c :: cs)
    | _, _ => none
  | _, _ => none

/-- The output so far is the byte-wise OR of the first `iters * rs` bytes of the
two inputs `A` and `B`, these bytes hold no conflict, and the streams stand
right behind them. -/
def merged_so_far (rs : Nat) (A B : List Byte) (s : Loop) : Prop :=
  s.file1.data = A.drop (s.iters * rs) ∧ s.file2.data = B.drop (s.iters * rs) ∧
  s.file3.out = or_bytes (A.take (s.iters * rs)) (B.take (s.iters * rs)) ∧
  s.iters * rs ≤ A.length ∧ s.iters * rs ≤ B.length ∧
  ∀ j, j < s.iters * rs → ¬ conflict_at A B j

/-- Both streams are clear of the end-of-file indicator and hold exactly
`remain` more bytes, and the bytes written so far and `remain` add up to the
size `n`. -/
def in_step (n : Int) (s : Loop) : Prop :=
  s.file1.eof = false ∧ s.file2.eof = false ∧
  (s.file1.data.length : Int) = s.remain ∧ (s.file2.data.length : Int) = s.remain ∧
  (s.file3.out.length : Int) + s.remain = n


/-- What the program prints: the two lines of `version()`, the line of
`usage()`, or a line on the error stream (its format string). -/
inductive Printed where
  | banner
  | usage
  | error : String → Printed
deriving DecidableEq, Repr

/-- What `main` prints on its way to each exit. -/
def Exit.prints : Exit → List Printed
  | .help => [.banner, .usage]
  | .version => [.banner]
  | .success => []
  | .error_different => [.error "Error: files contain different non-zero data"]
  | .error_argcount => [.usage]
  | .error_file1 => [.error "Error opening/reading '%s'"]
  | .error_file2 => [.error "Error opening/reading '%s'"]
  | .error_file3 => [.error "Error opening/writing '%s'"]
  | .error_file_sizes => [.error "Error: file sizes are not identical"]
  | .error_short_read => [.error "Error: short read"]
  | .error_short_write => [.error "Error: short write (%ld != %ld or %ld)"]

/-- The state at the loop condition after `k` passes through the body that
all returned to it; `none` when the loop ends within these passes. -/
def after_passes (rs : Nat) : Nat → Loop → Option Loop
  | 0, s => some s
  | k + 1, s =>
    if s.remain > 0 then
      match loop_body rs s with
      | .exit _ _ => none
      | .next s1 => after_passes rs k s1
    else none

/-- The state in which `main` enters its loop: both inputs just opened, the
output just created, `remain` set to the size found by `stat`. -/
def loop_entry (s1 s2 : Source) (room : Option Nat) (n : Int) : Loop :=
  { file1 := ⟨s1.data, 0, s1.fault, false, false⟩,
    file2 := ⟨s2.data, 0, s2.fault, false, false⟩,
    file3 := ⟨[], room⟩, remain := n, iters := 0 }

/-- The bytes written so far and `remain` add up to the size `n`, and each
input has been read up to position `iters * rs`. -/
def counted (rs : Nat) (n : Int) (s : Loop) : Prop :=
  (s.file3.out.length : Int) + s.remain = n ∧
  s.file1.pos = s.iters * rs ∧ s.file2.pos = s.iters * rs
/-! ## Bytes -/

theorem byte_or_zero (a : Byte) : a ||| 0 = a := by
  apply Fin.ext
  show (a.val ||| 0) % 256 = a.val
  simp

theorem byte_zero_or (a : Byte) : 0 ||| a = a := by
  apply Fin.ext
  show (0 ||| a.val) % 256 = a.val
  simp

theorem byte_or_self (a : Byte) : a ||| a = a := by
  apply Fin.ext
  show (a.val ||| a.val) % 256 = a.val
  simp

theorem byte_or_comm (a b : Byte) : a ||| b = b ||| a := by
  apply Fin.ext
  show (a.val ||| b.val) % 256 = (b.val ||| a.val) % 256
  rw [Nat.lor_comm]

/-! ## The inner loop -/

theorem or_bytes_length (A B : List Byte) (h : A.length = B.length) :
    (or_bytes A B).length = A.length := by
  simp [or_bytes, h]

theorem or_bytes_append (A1 A2 B1 B2 : List Byte) (h : A1.length = B1.length) :
    or_bytes (A1 ++ A2) (B1 ++ B2) = or_bytes A1 B1 ++ or_bytes A2 B2 := by
  simp [or_bytes, List.zipWith_append _ _ _ _ _ h]

theorem or_bytes_take_succ (A B : List Byte) (i : Nat) (hA : i < A.length) (hB : i < B.length) :
    or_bytes (A.take (i + 1)) (B.take (i + 1)) =
      or_bytes (A.take i) (B.take i) ++ [A.getD i 0 ||| B.getD i 0] := by
  rw [List.take_add, List.take_add B, or_bytes_append]
  · congr 1
    rw [List.take_one_drop_eq_of_lt_length hA, List.take_one_drop_eq_of_lt_length hB]
    simp [or_bytes, List.getD_eq_getElem?_getD, hA, hB]
  · simp; omega

theorem take_set_self (l : List Byte) (i : Nat) (v : Byte) :
    (l.set i v).take i = l.take i := by
  rw [List.set_take]
  apply List.set_eq_of_length_le
  simp

theorem drop_set_self (v : Byte) :
    ∀ (l : List Byte) (i : Nat), i < l.length → (l.set i v).drop i = v :: l.drop (i + 1) := by
  intro l
  induction l with
  | nil => intro i h; simp at h
  | cons x xs ih =>
    intro i h
    cases i with
    | zero => simp
    | succ i => simpa using ih i (by simpa using h)

theorem merge_block_spec (buf2 : List Byte) :
    ∀ (i : Nat) (buf1 : List Byte), buf1.length = buf2.length → i ≤ buf1.length →
      (∀ j, j < i → ¬ conflict_at buf1 buf2 j) →
      merge_block buf2 i buf1 = .ok (or_bytes (buf1.take i) (buf2.take i) ++ buf1.drop i) := by
  intro i
  induction i with
  | zero => intro buf1 _ _ _; simp [merge_block, or_bytes]
  | succ i ih =>
    intro buf1 hlen hi hnc
    have hA : i < buf1.length := by omega
    have hB : i < buf2.length := by omega
    have h0 := hnc i (by omega)
    unfold merge_block
    rw [if_neg]
    · rw [ih _ (by simpa using hlen) (by simp; omega)]
      · rw [or_bytes_take_succ _ _ _ hA hB, List.append_assoc, take_set_self,
          drop_set_self _ _ _ hA]
        rfl
      · intro j hj hc
        apply hnc j (by omega)
        unfold conflict_at at hc ⊢
        rw [List.getD_eq_getElem?_getD, List.getElem?_set] at hc
        rw [if_neg (by omega)] at hc
        rwa [← List.getD_eq_getElem?_getD] at hc
    · intro h
      apply h0
      exact ⟨h.2.1, h.2.2, h.1⟩

theorem conflict_at_set (buf1 buf2 : List Byte) (i j : Nat) (v : Byte) (h : j ≠ i) :
    conflict_at (buf1.set i v) buf2 j ↔ conflict_at buf1 buf2 j := by
  unfold conflict_at
  rw [List.getD_eq_getElem?_getD, List.getElem?_set, if_neg (by omega),
    ← List.getD_eq_getElem?_getD]

theorem merge_block_conflict (buf2 : List Byte) :
    ∀ (i : Nat) (buf1 : List Byte), (∃ j, j < i ∧ conflict_at buf1 buf2 j) →
      ∃ e, merge_block buf2 i buf1 = .error e ∧ e < i ∧ conflict_at buf1 buf2 e ∧
        ∀ j, e < j → j < i → ¬ conflict_at buf1 buf2 j := by
  intro i
  induction i with
  | zero => intro buf1 ⟨j, hj, _⟩; omega
  | succ i ih =>
    intro buf1 ⟨j, hj, hc⟩
    unfold merge_block
    by_cases h0 : conflict_at buf1 buf2 i
    · refine ⟨i, ?_, by omega, h0, fun k h1 h2 => by omega⟩
      rw [if_pos]
      exact ⟨h0.2.2, h0.1, h0.2.1⟩
    · have hji : j ≠ i := fun h => h0 (h ▸ hc)
      rw [if_neg (fun h => h0 ⟨h.2.1, h.2.2, h.1⟩)]
      obtain ⟨e, he, hei, hce, hmax⟩ :=
        ih (buf1.set i (buf1.getD i 0 ||| buf2.getD i 0))
          ⟨j, by omega, (conflict_at_set _ _ _ _ _ hji).2 hc⟩
      refine ⟨e, he, by omega, (conflict_at_set _ _ _ _ _ (by omega)).1 hce, ?_⟩
      intro k h1 h2
      by_cases hk : k = i
      · exact hk ▸ h0
      · exact fun hck => hmax k h1 (by omega) ((conflict_at_set _ _ _ _ _ hk).2 hck)

/-- The inner loop on a whole chunk: without a conflict it leaves the byte-wise
OR of the two buffers in `buf1`. -/
theorem merge_block_ok (a b : List Byte) (hlen : a.length = b.length)
    (hnc : ∀ j, j < a.length → ¬ conflict_at a b j) :
    merge_block b a.length a = .ok (or_bytes a b) := by
  rw [merge_block_spec b a.length a hlen (Nat.le_refl _) hnc, List.take_length,
    List.drop_length, hlen, List.take_length]
  simp

/-- The inner loop succeeds only on a chunk without a conflict. -/
theorem merge_block_ok_inv (a b r : List Byte) (hlen : a.length = b.length)
    (h : merge_block b a.length a = .ok r) :
    (∀ j, j < a.length → ¬ conflict_at a b j) ∧ r = or_bytes a b := by
  have hnc : ∀ j, j < a.length → ¬ conflict_at a b j := by
    intro j hj hc
    obtain ⟨e, he, _⟩ := merge_block_conflict b a.length a ⟨j, hj, hc⟩
    rw [he] at h
    cases h
  refine ⟨hnc, ?_⟩
  rw [merge_block_ok a b hlen hnc] at h
  cases h
  rfl

/-! ## The streams -/

theorem fread_ok_fst (n : Nat) (f : FILE) : (fread_ok n f).1 = f.data.take n := rfl

theorem fread_of_no_err (n : Nat) (f : FILE) (h : (fread n f).2.err = false) :
    fread n f = fread_ok n f := by
  cases hf : f.fault with
  | none => simp [fread, hf]
  | some k =>
    by_cases hk : k < n ∧ k ≤ f.data.length
    · simp [fread, hf, hk] at h
    · simp [fread, hf, hk]

theorem fread_of_no_fault (n : Nat) (f : FILE) (h : f.fault = none) :
    fread n f = fread_ok n f := by
  unfold fread
  rw [h]

/-! ## One pass through the loop body -/

theorem fread_plain (rs : Nat) (A : List Byte) (p : Nat) :
    fread rs ⟨A, p, none, false, false⟩ =
      (A.take rs, ⟨A.drop rs, p + (A.take rs).length, none, decide (A.length < rs), false⟩) := by
  simp [fread, fread_ok]

/-- A pass through the body on two streams that do not fault, hold equally
many bytes and have no conflict in the next chunk, with room on the output. -/
theorem loop_body_plain (rs : Nat) (A B O : List Byte) (p1 p2 k : Nat) (n : Int)
    (hlen : A.length = B.length)
    (hnc : ∀ j, j < (A.take rs).length → ¬ conflict_at (A.take rs) (B.take rs) j) :
    loop_body rs
      { file1 := ⟨A, p1, none, false, false⟩, file2 := ⟨B, p2, none, false, false⟩,
        file3 := ⟨O, none⟩, remain := n, iters := k } =
    if A.length < rs then
      .exit .success
        { file1 := some ⟨A.drop rs, p1 + (A.take rs).length, none, true, false⟩,
          file2 := some ⟨B.drop rs, p2 + (B.take rs).length, none, true, false⟩,
          file3 := some ⟨O ++ or_bytes (A.take rs) (B.take rs), none⟩, iters := k + 1 }
    else
      .next
        { file1 := ⟨A.drop rs, p1 + (A.take rs).length, none, false, false⟩,
          file2 := ⟨B.drop rs, p2 + (B.take rs).length, none, false, false⟩,
          file3 := ⟨O ++ or_bytes (A.take rs) (B.take rs), none⟩,
          remain := n - ((A.take rs).length : Int), iters := k + 1 } := by
  have hl : (A.take rs).length = (B.take rs).length := by simp [hlen]
  have hm := merge_block_ok (A.take rs) (B.take rs) hl hnc
  have hw : (or_bytes (A.take rs) (B.take rs)).take (B.take rs).length =
      or_bytes (A.take rs) (B.take rs) := by
    apply List.take_of_length_le
    rw [or_bytes_length _ _ hl, hl]
  have hwl : (or_bytes (A.take rs) (B.take rs)).length = (B.take rs).length := by
    rw [or_bytes_length _ _ hl, hl]
  have hB : (B.length < rs) = (A.length < rs) := by rw [hlen]
  unfold loop_body
  simp only [fread_plain, ferror, feof, fwrite, Loop.world, hm, hw, hwl, hB]
  rw [hl]
  by_cases hlt : A.length < rs <;> simp [hlt]

/-- A pass through the body on two streams that do not fault and hold equally
many bytes, with a conflict in the next chunk: nothing is written. -/
theorem loop_body_conflict (rs : Nat) (A B : List Byte) (o : OFILE) (p1 p2 k : Nat) (n : Int)
    (hlen : A.length = B.length)
    (hc : ∃ j, j < (A.take rs).length ∧ conflict_at (A.take rs) (B.take rs) j) :
    loop_body rs
      { file1 := ⟨A, p1, none, false, false⟩, file2 := ⟨B, p2, none, false, false⟩,
        file3 := o, remain := n, iters := k } =
    .exit .error_different
      { file1 := some ⟨A.drop rs, p1 + (A.take rs).length, none, decide (A.length < rs), false⟩,
        file2 := some ⟨B.drop rs, p2 + (B.take rs).length, none, decide (B.length < rs), false⟩,
        file3 := some o, iters := k } := by
  have hl : (A.take rs).length = (B.take rs).length := by simp [hlen]
  obtain ⟨e, he, _⟩ := merge_block_conflict (B.take rs) (A.take rs).length (A.take rs) hc
  unfold loop_body
  simp only [fread_plain, ferror, Loop.world, he]
  rw [hl]
  simp

/-! ## The whole loop on streams that do not fault -/

theorem conflict_at_take (A B : List Byte) (rs j : Nat) (hj : j < rs) :
    conflict_at (A.take rs) (B.take rs) j ↔ conflict_at A B j := by
  unfold conflict_at
  simp [List.getD_eq_getElem?_getD, List.getElem?_take, hj]

theorem conflict_at_drop (A B : List Byte) (rs j : Nat) :
    conflict_at (A.drop rs) (B.drop rs) j ↔ conflict_at A B (rs + j) := by
  unfold conflict_at
  simp [List.getD_eq_getElem?_getD, List.getElem?_drop]

theorem or_bytes_take_drop (A B : List Byte) (rs : Nat) (hlen : A.length = B.length) :
    or_bytes (A.take rs) (B.take rs) ++ or_bytes (A.drop rs) (B.drop rs) = or_bytes A B := by
  rw [← or_bytes_append _ _ _ _ (by simp [hlen]), List.take_append_drop, List.take_append_drop]

theorem passes_zero (rs : Nat) (hrs : 0 < rs) : passes rs 0 = 0 := by
  unfold passes
  apply Nat.div_eq_of_lt
  omega

theorem passes_short (rs n : Nat) (h0 : 0 < n) (h : n ≤ rs) : passes rs n = 1 := by
  unfold passes
  have h1 : n + rs - 1 = (n - 1) + rs := by omega
  rw [h1, Nat.add_div_right _ (by omega), Nat.div_eq_of_lt (by omega)]

theorem passes_step (rs n : Nat) (hrs : 0 < rs) (h : rs ≤ n) :
    passes rs n = passes rs (n - rs) + 1 := by
  unfold passes
  have h1 : n + rs - 1 = (n - rs + rs - 1) + rs := by omega
  rw [h1, Nat.add_div_right _ hrs]

/-- Streams that hold equally many bytes without a conflict and never fault,
with room on the output: the loop ends with success, both streams are read to
their end, and the byte-wise OR of the two has been appended to the output. -/
theorem main_loop_plain (rs : Nat) (hrs : 0 < rs) :
    ∀ (fuel : Nat) (A B O : List Byte) (p1 p2 k : Nat), A.length = B.length →
      A.length ≤ fuel → (∀ j, j < A.length → ¬ conflict_at A B j) →
      ∃ e1 e2, main_loop rs fuel
        { file1 := ⟨A, p1, none, false, false⟩, file2 := ⟨B, p2, none, false, false⟩,
          file3 := ⟨O, none⟩, remain := (A.length : Int), iters := k } =
        some (.success,
          { file1 := some ⟨[], p1 + A.length, none, e1, false⟩,
            file2 := some ⟨[], p2 + B.length, none, e2, false⟩,
            file3 := some ⟨O ++ or_bytes A B, none⟩, iters := k + passes rs A.length }) := by
  intro fuel
  induction fuel with
  | zero =>
    intro A B O p1 p2 k hlen hfuel _
    have hA : A = [] := List.eq_nil_of_length_eq_zero (by omega)
    have hB : B = [] := List.eq_nil_of_length_eq_zero (by omega)
    subst hA hB
    exact ⟨false, false, by simp [main_loop, Loop.world, or_bytes, passes_zero rs hrs]⟩
  | succ fuel ih =>
    intro A B O p1 p2 k hlen hfuel hnc
    by_cases h0 : A.length = 0
    · have hA : A = [] := List.eq_nil_of_length_eq_zero h0
      have hB : B = [] := List.eq_nil_of_length_eq_zero (by omega)
      subst hA hB
      exact ⟨false, false, by simp [main_loop, Loop.world, or_bytes, passes_zero rs hrs]⟩
    · have hpos : (0 : Int) < (A.length : Int) := by omega
      have hchunk : ∀ j, j < (A.take rs).length →
          ¬ conflict_at (A.take rs) (B.take rs) j := by
        intro j hj hc
        rw [List.length_take] at hj
        exact hnc j (by omega) ((conflict_at_take A B rs j (by omega)).1 hc)
      unfold main_loop
      rw [if_pos hpos, loop_body_plain rs A B O p1 p2 k _ hlen hchunk]
      by_cases hlt : A.length < rs
      · rw [if_pos hlt]
        refine ⟨true, true, ?_⟩
        have hd1 : A.drop rs = [] := List.drop_eq_nil_of_le (by omega)
        have hd2 : B.drop rs = [] := List.drop_eq_nil_of_le (by omega)
        have ht1 : A.take rs = A := List.take_of_length_le (by omega)
        have ht2 : B.take rs = B := List.take_of_length_le (by omega)
        simp only [hd1, hd2, ht1, ht2, passes_short rs A.length (by omega) (by omega)]
      · rw [if_neg hlt]
        have hl1 : (A.take rs).length = rs := by rw [List.length_take]; omega
        have hl2 : (B.take rs).length = rs := by rw [List.length_take]; omega
        have hrem : (A.length : Int) - ((A.take rs).length : Int) =
            ((A.drop rs).length : Int) := by
          rw [hl1, List.length_drop]; omega
        rw [hrem]
        obtain ⟨e1, e2, h⟩ := ih (A.drop rs) (B.drop rs) (O ++ or_bytes (A.take rs) (B.take rs))
          (p1 + (A.take rs).length) (p2 + (B.take rs).length) (k + 1)
          (by simp [hlen]) (by rw [List.length_drop]; omega)
          (fun j hj hc => hnc (rs + j) (by rw [List.length_drop] at hj; omega)
            ((conflict_at_drop A B rs j).1 hc))
        refine ⟨e1, e2, ?_⟩
        dsimp only
        rw [h, List.append_assoc, or_bytes_take_drop A B rs hlen, hl1, hl2,
          List.length_drop, List.length_drop, passes_step rs A.length hrs (by omega)]
        have e3 : p1 + rs + (A.length - rs) = p1 + A.length := by omega
        have e4 : p2 + rs + (B.length - rs) = p2 + B.length := by omega
        have e5 : k + 1 + passes rs (A.length - rs) = k + (passes rs (A.length - rs) + 1) := by
          omega
        rw [e3, e4, e5]

/-- Streams that hold equally many bytes and never fault, with a conflict
somewhere and room on the output: the loop ends at `error_different`. -/
theorem main_loop_conflict (rs : Nat) (hrs : 0 < rs) :
    ∀ (fuel : Nat) (A B O : List Byte) (p1 p2 k : Nat), A.length = B.length →
      A.length ≤ fuel → (∃ j, j < A.length ∧ conflict_at A B j) →
      ∃ w, main_loop rs fuel
        { file1 := ⟨A, p1, none, false, false⟩, file2 := ⟨B, p2, none, false, false⟩,
          file3 := ⟨O, none⟩, remain := (A.length : Int), iters := k } =
        some (.error_different, w) := by
  intro fuel
  induction fuel with
  | zero =>
    intro A B O p1 p2 k _ hfuel ⟨j, hj, _⟩
    omega
  | succ fuel ih =>
    intro A B O p1 p2 k hlen hfuel ⟨j, hj, hc⟩
    have hpos : (0 : Int) < (A.length : Int) := by omega
    unfold main_loop
    rw [if_pos hpos]
    by_cases hchunk : ∃ i, i < (A.take rs).length ∧ conflict_at (A.take rs) (B.take rs) i
    · rw [loop_body_conflict rs A B _ p1 p2 k _ hlen hchunk]
      exact ⟨_, rfl⟩
    · have hchunk2 : ∀ i, i < (A.take rs).length →
          ¬ conflict_at (A.take rs) (B.take rs) i := fun i hi hci => hchunk ⟨i, hi, hci⟩
      have hjrs : rs ≤ j := by
        by_contra hlt
        exact hchunk2 j (by rw [List.length_take]; omega)
          ((conflict_at_take A B rs j (by omega)).2 hc)
      rw [loop_body_plain rs A B O p1 p2 k _ hlen hchunk2, if_neg (by omega)]
      have hl1 : (A.take rs).length = rs := by rw [List.length_take]; omega
      have hrem : (A.length : Int) - ((A.take rs).length : Int) =
          ((A.drop rs).length : Int) := by
        rw [hl1, List.length_drop]; omega
      rw [hrem]
      dsimp only
      apply ih (A.drop rs) (B.drop rs) _ _ _ _ (by simp [hlen])
        (by rw [List.length_drop]; omega)
      refine ⟨j - rs, by rw [List.length_drop]; omega, ?_⟩
      rw [conflict_at_drop]
      have e : rs + (j - rs) = j := by omega
      rw [e]
      exact hc

/-! ## The program -/

/-- With three file arguments, none of them read as a flag, with both inputs
opened, both sizes found and equal, and the output created, `main` reaches its
loop with the remaining length set to the size. -/
theorem main_opened (rs fuel : Nat) (p a b c : String) (env : Env) (s1 s2 : Source)
    (n : Int) (room : Option Nat) (hflag : a ∉ info_flags)
    (h1 : env.open1 = some s1) (h2 : env.open2 = some s2)
    (hs1 : env.stat1 = some n) (hs2 : env.stat2 = some n) (h3 : env.open3 = some room) :
    main rs fuel [p, a, b, c] env =
      main_loop rs fuel
        { file1 := ⟨s1.data, 0, s1.fault, false, false⟩,
          file2 := ⟨s2.data, 0, s2.fault, false, false⟩,
          file3 := ⟨[], room⟩, remain := n, iters := 0 } := by
  simp only [info_flags, List.mem_cons, List.mem_singleton, not_or, List.not_mem_nil,
    or_false] at hflag
  obtain ⟨f1, f2, f3, f4, f5⟩ := hflag
  simp [main, argv1, f1, f2, f3, f4, f5, h1, h2, hs1, hs2, h3, fopen_r, fopen_w]

theorem main_plain_ok (rs fuel : Nat) (p a b c : String) (A B : List Byte) (hrs : 0 < rs)
    (hflag : a ∉ info_flags) (hlen : A.length = B.length) (hfuel : A.length ≤ fuel)
    (hnc : ∀ i, i < A.length → ¬ conflict_at A B i) :
    ∃ w, main rs fuel [p, a, b, c] (plain_env A B) = some (.success, w) ∧
      w.sink = some (or_bytes A B) ∧ w.iters = passes rs A.length := by
  rw [main_opened rs fuel p a b c (plain_env A B) ⟨A, none⟩ ⟨B, none⟩ (A.length : Int) none
    hflag rfl rfl rfl (by simp [plain_env, hlen]) rfl]
  obtain ⟨e1, e2, h⟩ := main_loop_plain rs hrs fuel A B [] 0 0 0 hlen hfuel hnc
  exact ⟨_, h, by simp [World.sink], by simp⟩

theorem main_plain_conflict (rs fuel : Nat) (p a b c : String) (A B : List Byte) (hrs : 0 < rs)
    (hflag : a ∉ info_flags) (hlen : A.length = B.length) (hfuel : A.length ≤ fuel)
    (hc : ∃ i, i < A.length ∧ conflict_at A B i) :
    ∃ w, main rs fuel [p, a, b, c] (plain_env A B) = some (.error_different, w) := by
  rw [main_opened rs fuel p a b c (plain_env A B) ⟨A, none⟩ ⟨B, none⟩ (A.length : Int) none
    hflag rfl rfl rfl (by simp [plain_env, hlen]) rfl]
  exact main_loop_conflict rs hrs fuel A B [] 0 0 0 hlen hfuel hc

theorem or_bytes_getD (A B : List Byte) (i : Nat) (hA : i < A.length) (hB : i < B.length) :
    (or_bytes A B).getD i 0 = A.getD i 0 ||| B.getD i 0 := by
  simp [or_bytes, List.getD_eq_getElem?_getD, List.getElem?_zipWith, hA, hB]

theorem or_bytes_comm (A B : List Byte) : or_bytes A B = or_bytes B A := by
  unfold or_bytes
  exact List.zipWith_comm_of_comm _ byte_or_comm A B

theorem conflict_at_symm (A B : List Byte) (i : Nat) (h : conflict_at B A i) :
    conflict_at A B i :=
  ⟨h.2.1, h.1, fun e => h.2.2 e.symm⟩

theorem or_bytes_zeros (A : List Byte) : or_bytes A (List.replicate A.length 0) = A := by
  induction A with
  | nil => rfl
  | cons x xs ih =>
    simp only [or_bytes, List.length_cons, List.replicate_succ, List.zipWith_cons_cons] at ih ⊢
    rw [ih, byte_or_zero]

theorem or_bytes_self (A : List Byte) : or_bytes A A = A := by
  induction A with
  | nil => rfl
  | cons x xs ih =>
    simp only [or_bytes, List.zipWith_cons_cons] at ih ⊢
    rw [ih, byte_or_self]

theorem no_conflict_zeros (A : List Byte) (n i : Nat) :
    ¬ conflict_at A (List.replicate n 0) i := by
  intro h
  apply h.2.1
  rw [List.getD_eq_getElem?_getD, List.getElem?_replicate]
  split <;> rfl

theorem no_conflict_self (A : List Byte) (i : Nat) : ¬ conflict_at A A i :=
  fun h => h.2.2 rfl


/-! ## One pass through the loop body, any streams -/

theorem fread_ok_length (rs : Nat) (f : FILE) (h : rs ≤ f.data.length) :
    (fread_ok rs f).1.length = rs := by
  simp [fread_ok, h]

theorem fwrite_full (buf : List Byte) (n : Nat) (f : OFILE) (hb : buf.length = n)
    (h : (fwrite buf n f).1 = n) : (fwrite buf n f).2.out = f.out ++ buf := by
  subst hb
  unfold fwrite at h ⊢
  cases hr : f.room with
  | none => simp
  | some r =>
    simp only [hr] at h ⊢
    split
    · simp
    next hc =>
      rw [if_neg hc] at h
      simp only [List.length_take] at h
      have hle : buf.length ≤ r - f.out.length := by omega
      simp only [Nat.min_eq_left hle, List.take_length]

/-- The room of the device is a property of the device: `fwrite` leaves it as
it is. -/
theorem fwrite_room (buf : List Byte) (n : Nat) (f : OFILE) :
    (fwrite buf n f).2.room = f.room := by
  unfold fwrite
  cases hr : f.room with
  | none => simp [hr]
  | some r =>
    simp only [hr]
    split <;> rfl

/-- What is known when a pass through the body returns to the loop condition:
neither read faulted, both delivered a full chunk, the chunk had no conflict
and its byte-wise OR was appended to the output. -/
theorem loop_body_next (rs : Nat) (s s1 : Loop) (h : loop_body rs s = .next s1) :
    rs ≤ s.file1.data.length ∧ rs ≤ s.file2.data.length ∧
    (∀ j, j < rs → ¬ conflict_at s.file1.data s.file2.data j) ∧
    s1.file1 = (fread_ok rs s.file1).2 ∧ s1.file2 = (fread_ok rs s.file2).2 ∧
    s1.file3.out = s.file3.out ++ or_bytes (s.file1.data.take rs) (s.file2.data.take rs) ∧
    s1.remain = s.remain - (rs : Int) ∧ s1.iters = s.iters + 1 := by
  unfold loop_body at h
  simp only at h
  split at h
  · cases h
  next hlen =>
  split at h
  · cases h
  next he1 =>
  split at h
  · cases h
  next he2 =>
  split at h
  · cases h
  next buf1 hm =>
  split at h
  · cases h
  next hw =>
  split at h
  · cases h
  next heof =>
  simp only [ferror, Bool.not_eq_true] at he1 he2
  have hr1 := fread_of_no_err rs s.file1 he1
  have hr2 := fread_of_no_err rs s.file2 he2
  simp only [hr1, hr2, fread_ok_fst] at h hlen heof hm hw
  simp only [fread_ok, feof, Bool.and_eq_true, Bool.or_eq_true, decide_eq_true_eq] at heof
  simp only [ne_eq, not_not] at hlen hw
  have hlen2 := hlen
  simp only [List.length_take] at hlen2
  have hl1 : rs ≤ s.file1.data.length := by
    by_contra hc
    exact heof ⟨Or.inr (by omega), Or.inr (by omega)⟩
  have hl2 : rs ≤ s.file2.data.length := by
    by_contra hc
    exact heof ⟨Or.inr (by omega), Or.inr (by omega)⟩
  obtain ⟨hnc, hbuf⟩ := merge_block_ok_inv _ _ _ hlen hm
  have htl : (s.file1.data.take rs).length = rs := by rw [List.length_take]; omega
  have htl2 : (s.file2.data.take rs).length = rs := by rw [List.length_take]; omega
  refine ⟨hl1, hl2, ?_, ?_⟩
  · intro j hj hc
    exact hnc j (by omega) ((conflict_at_take _ _ rs j hj).2 hc)
  · injection h with h
    subst h
    refine ⟨rfl, rfl, ?_, ?_, rfl⟩
    · rw [← hbuf]
      exact fwrite_full _ _ _ (by rw [hbuf, or_bytes_length _ _ hlen, hlen]) hw
    · simp only [htl2]

/-- What is known when a pass through the body ends at `error_different`: the
output stream and the pass counter are as they were, and the chunk just read
holds a conflict. -/
theorem loop_body_exit_different (rs : Nat) (s : Loop) (w : World)
    (h : loop_body rs s = .exit .error_different w) :
    w.file3 = some s.file3 ∧ w.iters = s.iters ∧
      ∃ j, j < rs ∧ conflict_at s.file1.data s.file2.data j := by
  unfold loop_body at h
  simp only at h
  split at h
  · cases h
  next hlen =>
  split at h
  · cases h
  next he1 =>
  split at h
  · cases h
  next he2 =>
  split at h
  next e hm =>
    simp only [ferror, Bool.not_eq_true] at he1 he2
    have hr1 := fread_of_no_err rs s.file1 he1
    have hr2 := fread_of_no_err rs s.file2 he2
    simp only [hr1, hr2, fread_ok_fst, ne_eq, not_not] at h hlen hm
    injection h with _ h
    subst h
    refine ⟨rfl, rfl, ?_⟩
    by_contra hnc
    have hnc2 : ∀ j, j < (s.file1.data.take rs).length →
        ¬ conflict_at (s.file1.data.take rs) (s.file2.data.take rs) j := by
      intro j hj hc
      rw [List.length_take] at hj
      exact hnc ⟨j, by omega, (conflict_at_take _ _ rs j (by omega)).1 hc⟩
    rw [merge_block_ok _ _ hlen hnc2] at hm
    cases hm
  next buf1 hm =>
  split at h
  · cases h
  next hw =>
  split at h
  · cases h
  · cases h

/-- What is known when a pass through the body ends with success (the `break`):
neither read faulted, both streams are at their end, and the byte-wise OR of
the bytes just read was appended to the output. -/
theorem loop_body_exit_success (rs : Nat) (s : Loop) (w : World)
    (h : loop_body rs s = .exit .success w) :
    (s.file1.eof = true ∨ s.file1.data.length < rs) ∧
    (s.file2.eof = true ∨ s.file2.data.length < rs) ∧
    (s.file1.data.take rs).length = (s.file2.data.take rs).length ∧
    ∃ o, w.file3 = some o ∧
      o.out = s.file3.out ++ or_bytes (s.file1.data.take rs) (s.file2.data.take rs) := by
  unfold loop_body at h
  simp only at h
  split at h
  · cases h
  next hlen =>
  split at h
  · cases h
  next he1 =>
  split at h
  · cases h
  next he2 =>
  split at h
  · cases h
  next buf1 hm =>
  split at h
  · cases h
  next hw =>
  split at h
  next heof =>
    simp only [ferror, Bool.not_eq_true] at he1 he2
    have hr1 := fread_of_no_err rs s.file1 he1
    have hr2 := fread_of_no_err rs s.file2 he2
    simp only [hr1, hr2, fread_ok_fst, ne_eq, not_not] at h hlen heof hm hw
    simp only [fread_ok, feof, Bool.and_eq_true, Bool.or_eq_true, decide_eq_true_eq] at heof
    obtain ⟨_, hbuf⟩ := merge_block_ok_inv _ _ _ hlen hm
    injection h with _ h
    subst h
    refine ⟨heof.1, heof.2, hlen, _, rfl, ?_⟩
    rw [← hbuf]
    exact fwrite_full _ _ _ (by rw [hbuf, or_bytes_length _ _ hlen, hlen]) hw
  · cases h

/-! ## Reasoning about the whole loop -/

/-- The invariant rule of the main loop: a property of the loop state that
every returning pass keeps yields, at whatever exit the loop takes, what the
exits yield from it. -/
theorem main_loop_rule (rs : Nat) (I : Loop → Prop) (Q : Exit → World → Prop)
    (hnext : ∀ s s1, I s → 0 < s.remain → loop_body rs s = .next s1 → I s1)
    (hexit : ∀ s e w, I s → 0 < s.remain → loop_body rs s = .exit e w → Q e w)
    (hdone : ∀ s, I s → s.remain ≤ 0 → Q .success s.world) :
    ∀ (fuel : Nat) (s : Loop) (e : Exit) (w : World), I s →
      main_loop rs fuel s = some (e, w) → Q e w := by
  intro fuel
  induction fuel with
  | zero =>
    intro s e w hI h
    unfold main_loop at h
    split at h
    · cases h
    next hr =>
      cases h
      exact hdone s hI (by omega)
  | succ fuel ih =>
    intro s e w hI h
    unfold main_loop at h
    split at h
    next hr =>
      split at h
      next e1 w1 hb =>
        cases h
        exact hexit s e w hI hr hb
      next s1 hb => exact ih s1 e w (hnext s s1 hI hr hb) h
    next hr =>
      cases h
      exact hdone s hI (by omega)

/-- The main loop ends: with a read size of at least one byte, every returning
pass lowers the remaining length, so fuel for `remain` passes is enough. -/
theorem main_loop_total (rs : Nat) (hrs : 0 < rs) :
    ∀ (fuel : Nat) (s : Loop), s.remain ≤ (fuel : Int) →
      ∃ e w, main_loop rs fuel s = some (e, w) := by
  intro fuel
  induction fuel with
  | zero =>
    intro s hf
    unfold main_loop
    rw [if_neg (by simpa using hf)]
    exact ⟨_, _, rfl⟩
  | succ fuel ih =>
    intro s hf
    unfold main_loop
    split
    next hr =>
      split
      next e1 w1 hb => exact ⟨_, _, rfl⟩
      next s1 hb =>
        obtain ⟨_, _, _, _, _, _, hrem, _⟩ := loop_body_next rs s s1 hb
        apply ih s1
        rw [hrem]
        push_cast at hf
        omega
    next hr => exact ⟨_, _, rfl⟩

/-! ## The one-shot merge of the specification -/

theorem merge_byte_spec_ok (a b : Byte) (h : ¬ conflict a b) :
    merge_byte_spec a b = some (a ||| b) := by
  unfold merge_byte_spec
  by_cases hb : b = 0
  · rw [if_pos hb, hb, byte_or_zero]
  · by_cases ha : a = 0
    · rw [if_neg hb, if_pos ha, ha, byte_zero_or]
    · by_cases hab : a = b
      · rw [if_neg hb, if_neg ha, if_pos hab, ← hab, byte_or_self]
      · exact absurd ⟨ha, hb, hab⟩ h

theorem merge_byte_spec_conflict (a b : Byte) (h : conflict a b) :
    merge_byte_spec a b = none := by
  unfold merge_byte_spec
  rw [if_neg h.2.1, if_neg h.1, if_neg h.2.2]

theorem conflict_at_cons_zero (a b : Byte) (A B : List Byte) :
    conflict_at (a :: A) (b :: B) 0 ↔ conflict a b := by
  simp [conflict_at]

theorem conflict_at_cons_succ (a b : Byte) (A B : List Byte) (i : Nat) :
    conflict_at (a :: A) (b :: B) (i + 1) ↔ conflict_at A B i := by
  simp [conflict_at]

theorem merge_spec_ok :
    ∀ (A B : List Byte), A.length = B.length → (∀ i, i < A.length → ¬ conflict_at A B i) →
      merge_spec A B = some (or_bytes A B) := by
  intro A
  induction A with
  | nil =>
    intro B hlen _
    have hB : B = [] := List.eq_nil_of_length_eq_zero (by simpa using hlen.symm)
    subst hB
    rfl
  | cons a A ih =>
    intro B hlen hnc
    cases B with
    | nil => simp at hlen
    | cons b B =>
      have h0 : ¬ conflict a b :=
        fun h => hnc 0 (by simp) ((conflict_at_cons_zero a b A B).2 h)
      have ht := ih B (by simpa using hlen)
        (fun i hi h => hnc (i + 1) (by simpa using hi) ((conflict_at_cons_succ a b A B i).2 h))
      simp only [merge_spec, merge_byte_spec_ok a b h0, ht, or_bytes, List.zipWith_cons_cons]

theorem merge_spec_conflict :
    ∀ (A B : List Byte), (∃ i, i < A.length ∧ conflict_at A B i) → merge_spec A B = none := by
  intro A
  induction A with
  | nil => intro B ⟨i, hi, _⟩; simp at hi
  | cons a A ih =>
    intro B ⟨i, hi, hc⟩
    cases B with
    | nil => rfl
    | cons b B =>
      cases i with
      | zero =>
        simp only [merge_spec, merge_byte_spec_conflict a b ((conflict_at_cons_zero a b A B).1 hc)]
      | succ i =>
        have ht := ih B ⟨i, by simpa using hi, (conflict_at_cons_succ a b A B i).1 hc⟩
        simp only [merge_spec, ht]
        cases merge_byte_spec a b <;> rfl

/-! ## From the program to its loop -/

theorem fopen_r_some (o : Option Source) (f : FILE) (h : fopen_r o = some f) :
    ∃ s, o = some s ∧ f = ⟨s.data, 0, s.fault, false, false⟩ := by
  cases o with
  | none => cases h
  | some s =>
    refine ⟨s, rfl, ?_⟩
    simp only [fopen_r, Option.some.injEq] at h
    exact h.symm

theorem fopen_w_some (o : Option (Option Nat)) (f : OFILE) (h : fopen_w o = some f) :
    ∃ room, o = some room ∧ f = ⟨[], room⟩ := by
  cases o with
  | none => cases h
  | some room =>
    refine ⟨room, rfl, ?_⟩
    simp only [fopen_w, Option.some.injEq] at h
    exact h.symm

/-- A run that ends with success or at `error_different` has gone through the
loop: both inputs were opened, both sizes were found and equal, and the output
was created. -/
theorem main_loop_exit (rs fuel : Nat) (argv : List String) (env : Env) (e : Exit) (w : World)
    (he : e = .success ∨ e = .error_different) (h : main rs fuel argv env = some (e, w)) :
    ∃ s1 s2 n room, env.open1 = some s1 ∧ env.open2 = some s2 ∧ env.stat1 = some n ∧
      env.stat2 = some n ∧ env.open3 = some room ∧
      main_loop rs fuel
        { file1 := ⟨s1.data, 0, s1.fault, false, false⟩,
          file2 := ⟨s2.data, 0, s2.fault, false, false⟩,
          file3 := ⟨[], room⟩, remain := n, iters := 0 } = some (e, w) := by
  have hne : ∀ (x : Exit) (v : World), x ≠ .success → x ≠ .error_different →
      some (x, v) = some (e, w) → False := by
    intro x v h1 h2 hx
    simp only [Option.some.injEq, Prod.mk.injEq] at hx
    rcases he with he | he
    · exact h1 (hx.1.trans he)
    · exact h2 (hx.1.trans he)
  unfold main at h
  split at h
  · exact absurd h (fun hx => hne _ _ (by decide) (by decide) hx)
  split at h
  · exact absurd h (fun hx => hne _ _ (by decide) (by decide) hx)
  split at h
  · exact absurd h (fun hx => hne _ _ (by decide) (by decide) hx)
  split at h
  · exact absurd h (fun hx => hne _ _ (by decide) (by decide) hx)
  next f1 hf1 =>
  split at h
  · exact absurd h (fun hx => hne _ _ (by decide) (by decide) hx)
  next f2 hf2 =>
  simp only at h
  split at h
  · exact absurd h (fun hx => hne _ _ (by decide) (by decide) hx)
  next n1 hn1 =>
  split at h
  · exact absurd h (fun hx => hne _ _ (by decide) (by decide) hx)
  next n2 hn2 =>
  split at h
  · exact absurd h (fun hx => hne _ _ (by decide) (by decide) hx)
  next hn =>
  split at h
  · exact absurd h (fun hx => hne _ _ (by decide) (by decide) hx)
  next f3 hf3 =>
  obtain ⟨s1, ho1, rfl⟩ := fopen_r_some _ _ hf1
  obtain ⟨s2, ho2, rfl⟩ := fopen_r_some _ _ hf2
  obtain ⟨room, ho3, rfl⟩ := fopen_w_some _ _ hf3
  simp only [ne_eq, not_not] at hn
  subst hn
  exact ⟨s1, s2, n1, room, ho1, ho2, hn1, hn2, ho3, h⟩

/-! ## Invariants of the loop -/

theorem merged_so_far_next (rs : Nat) (A B : List Byte) (s s1 : Loop)
    (hI : merged_so_far rs A B s) (h : loop_body rs s = .next s1) :
    merged_so_far rs A B s1 := by
  obtain ⟨hd1, hd2, hout, hA, hB, hnc⟩ := hI
  obtain ⟨hl1, hl2, hc, hf1, hf2, ho, _, hit⟩ := loop_body_next rs s s1 h
  rw [hd1, List.length_drop] at hl1
  rw [hd2, List.length_drop] at hl2
  have hk : s1.iters * rs = s.iters * rs + rs := by rw [hit, Nat.succ_mul]
  unfold merged_so_far
  rw [hk]
  refine ⟨?_, ?_, ?_, by omega, by omega, ?_⟩
  · rw [hf1]
    show List.drop rs s.file1.data = _
    rw [hd1, List.drop_drop]
  · rw [hf2]
    show List.drop rs s.file2.data = _
    rw [hd2, List.drop_drop]
  · rw [ho, hout, hd1, hd2, List.take_add, List.take_add B, or_bytes_append]
    simp only [List.length_take]
    omega
  · intro j hj hcj
    by_cases hlt : j < s.iters * rs
    · exact hnc j hlt hcj
    · apply hc (j - s.iters * rs) (by omega)
      rw [hd1, hd2, conflict_at_drop]
      have e : s.iters * rs + (j - s.iters * rs) = j := by omega
      rw [e]
      exact hcj

theorem in_step_next (rs : Nat) (n : Int) (s s1 : Loop)
    (hI : in_step n s) (h : loop_body rs s = .next s1) : in_step n s1 := by
  obtain ⟨he1, he2, hd1, hd2, hout⟩ := hI
  obtain ⟨hl1, hl2, _, hf1, hf2, ho, hrem, _⟩ := loop_body_next rs s s1 h
  have hlt : (s.file1.data.take rs).length = (s.file2.data.take rs).length := by
    simp only [List.length_take]; omega
  have hol : (s1.file3.out.length : Int) = (s.file3.out.length : Int) + (rs : Int) := by
    rw [ho, List.length_append, or_bytes_length _ _ hlt, List.length_take,
      Nat.min_eq_left hl1]
    push_cast
    rfl
  unfold in_step
  rw [hf1, hf2, hrem, hol]
  simp only [fread_ok, he1, he2, List.length_drop, Bool.false_or, decide_eq_false_iff_not,
    not_lt]
  refine ⟨hl1, hl2, ?_, ?_, ?_⟩ <;> omega

theorem in_step_success (rs : Nat) (n : Int) (s : Loop) (w : World)
    (hI : in_step n s) (h : loop_body rs s = .exit .success w) :
    ∃ C, w.sink = some C ∧ (C.length : Int) = n := by
  obtain ⟨he1, he2, hd1, hd2, hout⟩ := hI
  obtain ⟨h1, h2, hlt, o, hw, ho⟩ := loop_body_exit_success rs s w h
  rw [he1] at h1
  rw [he2] at h2
  have hl1 : s.file1.data.length < rs := by simpa using h1
  refine ⟨o.out, by simp [World.sink, hw], ?_⟩
  rw [ho, List.length_append, or_bytes_length _ _ hlt, List.length_take,
    Nat.min_eq_right (by omega)]
  push_cast
  omega

/-! ## What a pass through the body reads and how it ends -/

/-- A pass that does not end at an error label had two reads without a fault
that returned equally many bytes. -/
theorem loop_body_reads (rs : Nat) (s : Loop)
    (h : (∃ s1, loop_body rs s = .next s1) ∨ (∃ w, loop_body rs s = .exit .success w)) :
    fread rs s.file1 = fread_ok rs s.file1 ∧ fread rs s.file2 = fread_ok rs s.file2 ∧
      (fread rs s.file1).1.length = (fread rs s.file2).1.length := by
  by_cases hlen : (fread rs s.file1).1.length = (fread rs s.file2).1.length
  · by_cases he1 : (fread rs s.file1).2.err = true
    · exfalso
      rcases h with ⟨s1, h⟩ | ⟨w, h⟩ <;> simp [loop_body, hlen, ferror, he1] at h
    · by_cases he2 : (fread rs s.file2).2.err = true
      · exfalso
        rcases h with ⟨s1, h⟩ | ⟨w, h⟩ <;> simp [loop_body, hlen, ferror, he1, he2] at h
      · exact ⟨fread_of_no_err rs s.file1 (by simpa using he1),
          fread_of_no_err rs s.file2 (by simpa using he2), hlen⟩
  · exfalso
    rcases h with ⟨s1, h⟩ | ⟨w, h⟩ <;> simp [loop_body, hlen] at h

/-- The exits of the loop body are the `break` and five error labels. -/
theorem loop_body_exits (rs : Nat) (s : Loop) (e : Exit) (w : World)
    (h : loop_body rs s = .exit e w) : e = .success ∨ e.code ≠ 0 := by
  unfold loop_body at h
  simp only at h
  split at h
  · cases h; right; decide
  split at h
  · cases h; right; decide
  split at h
  · cases h; right; decide
  split at h
  · cases h; right; decide
  split at h
  · cases h; right; decide
  split at h
  · cases h; left; rfl
  · cases h

/-- The `break` is taken with both end-of-file indicators set. -/
theorem loop_body_break (rs : Nat) (s : Loop) (w : World)
    (h : loop_body rs s = .exit .success w) :
    feof (fread rs s.file1).2 = true ∧ feof (fread rs s.file2).2 = true := by
  unfold loop_body at h
  simp only at h
  split at h
  · cases h
  split at h
  · cases h
  split at h
  · cases h
  split at h
  · cases h
  split at h
  · cases h
  split at h
  next heof => simpa using heof
  · cases h

/-- With a read size of at least one byte, a pass through the body ends at an
error label, or returns to the loop condition after both reads returned the
same positive number of bytes, by which `remain` went down, or takes the
`break` with both streams at their end. -/
theorem loop_body_progress (rs : Nat) (hrs : 0 < rs) (s : Loop) :
    (∃ e w, loop_body rs s = .exit e w ∧ e.code ≠ 0) ∨
    (∃ s1, loop_body rs s = .next s1 ∧ 0 < (fread rs s.file2).1.length ∧
      (fread rs s.file1).1.length = (fread rs s.file2).1.length ∧
      s1.remain = s.remain - ((fread rs s.file2).1.length : Int)) ∨
    (∃ w, loop_body rs s = .exit .success w ∧
      feof (fread rs s.file1).2 = true ∧ feof (fread rs s.file2).2 = true) := by
  cases h : loop_body rs s with
  | exit e w =>
    rcases loop_body_exits rs s e w h with he | he
    · subst he
      exact Or.inr (Or.inr ⟨w, rfl, loop_body_break rs s w h⟩)
    · exact Or.inl ⟨e, w, rfl, he⟩
  | next s1 =>
    obtain ⟨hr1, hr2, hlen⟩ := loop_body_reads rs s (Or.inl ⟨s1, h⟩)
    obtain ⟨_, hl2, _, _, _, _, hrem, _⟩ := loop_body_next rs s s1 h
    have hl : (fread rs s.file2).1.length = rs := by
      rw [hr2]
      exact fread_ok_length rs s.file2 hl2
    refine Or.inr (Or.inl ⟨s1, rfl, by omega, hlen, ?_⟩)
    rw [hl]
    exact hrem

/-! ## The passes that return to the loop condition -/

theorem after_passes_succ (rs k : Nat) (s t : Loop)
    (h : after_passes rs (k + 1) s = some t) :
    0 < s.remain ∧ ∃ s1, loop_body rs s = .next s1 ∧ after_passes rs k s1 = some t := by
  unfold after_passes at h
  split at h
  next hr =>
    split at h
    · cases h
    next s1 hb => exact ⟨hr, s1, hb, h⟩
  · cases h

/-- The invariant rule for the passes that return to the loop condition. -/
theorem after_passes_rule (rs : Nat) (I : Loop → Prop)
    (hnext : ∀ s s1, I s → 0 < s.remain → loop_body rs s = .next s1 → I s1) :
    ∀ (k : Nat) (s t : Loop), I s → after_passes rs k s = some t → I t := by
  intro k
  induction k with
  | zero =>
    intro s t hI h
    simp only [after_passes, Option.some.injEq] at h
    exact h ▸ hI
  | succ k ih =>
    intro s t hI h
    obtain ⟨hr, s1, hb, hk⟩ := after_passes_succ rs k s t h
    exact ih s1 t (hnext s s1 hI hr hb) hk

theorem main_loop_next (rs fuel : Nat) (s s1 : Loop) (hr : 0 < s.remain)
    (hb : loop_body rs s = .next s1) : main_loop rs (fuel + 1) s = main_loop rs fuel s1 := by
  conv_lhs => unfold main_loop
  rw [if_pos hr, hb]

theorem main_loop_exit_pass (rs fuel : Nat) (s : Loop) (e : Exit) (w : World)
    (hr : 0 < s.remain) (hb : loop_body rs s = .exit e w) :
    main_loop rs (fuel + 1) s = some (e, w) := by
  conv_lhs => unfold main_loop
  rw [if_pos hr, hb]

/-- After `k` passes that return to the loop condition, the loop goes on from
the state reached, with `k` units of fuel used. -/
theorem main_loop_after_passes (rs : Nat) :
    ∀ (k fuel : Nat) (s t : Loop), after_passes rs k s = some t →
      main_loop rs (k + fuel) s = main_loop rs fuel t := by
  intro k
  induction k with
  | zero =>
    intro fuel s t h
    simp only [after_passes, Option.some.injEq] at h
    rw [h, Nat.zero_add]
  | succ k ih =>
    intro fuel s t h
    obtain ⟨hr, s1, hb, hk⟩ := after_passes_succ rs k s t h
    have e : k + 1 + fuel = (k + fuel) + 1 := by omega
    rw [e, main_loop_next rs (k + fuel) s s1 hr hb]
    exact ih fuel s1 t hk

theorem main_loop_done (rs fuel : Nat) (s : Loop) (h : s.remain ≤ 0) :
    main_loop rs fuel s = some (.success, s.world) := by
  cases fuel <;> simp [main_loop, Int.not_lt.2 h]

/-- The loop ends with success exactly in two ways: after some passes that
returned to the loop condition, `remain` is 0 or below, or the next pass takes
the `break`. -/
theorem main_loop_success_iff (rs : Nat) :
    ∀ (fuel : Nat) (s : Loop) (w : World),
      main_loop rs fuel s = some (.success, w) ↔
      ∃ k t, after_passes rs k s = some t ∧ k ≤ fuel ∧
        ((t.remain ≤ 0 ∧ w = t.world) ∨
         (0 < t.remain ∧ k < fuel ∧ loop_body rs t = .exit .success w)) := by
  intro fuel s w
  constructor
  · induction fuel generalizing s with
    | zero =>
      intro h
      unfold main_loop at h
      split at h
      · cases h
      next hr =>
        cases h
        exact ⟨0, s, rfl, Nat.le_refl 0, Or.inl ⟨by omega, rfl⟩⟩
    | succ fuel ih =>
      intro h
      unfold main_loop at h
      split at h
      next hr =>
        split at h
        next e v hb =>
          cases h
          exact ⟨0, s, rfl, Nat.zero_le _, Or.inr ⟨hr, Nat.succ_pos _, hb⟩⟩
        next s1 hb =>
          obtain ⟨k, t, hk, hle, ht⟩ := ih s1 h
          refine ⟨k + 1, t, ?_, by omega, ?_⟩
          · unfold after_passes
            rw [if_pos hr, hb]
            exact hk
          · rcases ht with ht | ⟨h1, h2, h3⟩
            · exact Or.inl ht
            · exact Or.inr ⟨h1, by omega, h3⟩
      next hr =>
        cases h
        exact ⟨0, s, rfl, Nat.zero_le _, Or.inl ⟨by omega, rfl⟩⟩
  · intro ⟨k, t, hk, hle, ht⟩
    have e : fuel = k + (fuel - k) := by omega
    rw [e, main_loop_after_passes rs k (fuel - k) s t hk]
    rcases ht with ⟨hr, hw⟩ | ⟨hr, hlt, hb⟩
    · rw [hw]
      exact main_loop_done rs _ t hr
    · have e2 : fuel - k = (fuel - k - 1) + 1 := by omega
      rw [e2]
      exact main_loop_exit_pass rs _ t _ w hr hb

/-! ## The invariant of the loop from its entry -/

theorem counted_next (rs : Nat) (n : Int) (s s1 : Loop)
    (hI : counted rs n s) (h : loop_body rs s = .next s1) : counted rs n s1 := by
  obtain ⟨hsum, hp1, hp2⟩ := hI
  obtain ⟨hl1, hl2, _, hf1, hf2, ho, hrem, hit⟩ := loop_body_next rs s s1 h
  have hlt : (s.file1.data.take rs).length = (s.file2.data.take rs).length := by
    simp only [List.length_take]; omega
  have hol : (s1.file3.out.length : Int) = (s.file3.out.length : Int) + (rs : Int) := by
    rw [ho, List.length_append, or_bytes_length _ _ hlt, List.length_take,
      Nat.min_eq_left hl1]
    push_cast
    rfl
  unfold counted
  rw [hf1, hf2, hrem, hol, hit, Nat.succ_mul]
  simp only [fread_ok, List.length_take, Nat.min_eq_left hl1, Nat.min_eq_left hl2]
  refine ⟨by omega, by omega, by omega⟩

theorem after_passes_iters (rs : Nat) :
    ∀ (k : Nat) (s t : Loop), after_passes rs k s = some t → t.iters = s.iters + k := by
  intro k
  induction k with
  | zero =>
    intro s t h
    simp only [after_passes, Option.some.injEq] at h
    rw [← h]
    rfl
  | succ k ih =>
    intro s t h
    obtain ⟨_, s1, hb, hk⟩ := after_passes_succ rs k s t h
    obtain ⟨_, _, _, _, _, _, _, hit⟩ := loop_body_next rs s s1 hb
    rw [ih s1 t hk, hit]
    omega

theorem take_length_take (l : List Byte) (r : Nat) : l.take (l.take r).length = l.take r := by
  rw [List.length_take]
  rcases Nat.le_total r l.length with h | h
  · rw [Nat.min_eq_left h]
  · rw [Nat.min_eq_right h, List.take_length, List.take_of_length_le h]

/-- The state reached from the entry of the loop after `k` passes that
returned to the loop condition. -/
theorem after_passes_entry (rs k : Nat) (s1 s2 : Source) (room : Option Nat) (n : Int)
    (s : Loop) (h : after_passes rs k (loop_entry s1 s2 room n) = some s) :
    s.iters = k ∧ counted rs n s ∧ merged_so_far rs s1.data s2.data s := by
  refine ⟨?_, ?_, ?_⟩
  · rw [after_passes_iters rs k _ s h]
    simp [loop_entry]
  · refine after_passes_rule rs (counted rs n)
      (fun a b hI _ hb => counted_next rs n a b hI hb) k _ s ?_ h
    simp [counted, loop_entry]
  · refine after_passes_rule rs (merged_so_far rs s1.data s2.data)
      (fun a b hI _ hb => merged_so_far_next rs _ _ a b hI hb) k _ s ?_ h
    refine ⟨by simp [loop_entry], by simp [loop_entry], by simp [loop_entry, or_bytes],
      by simp [loop_entry], by simp [loop_entry], ?_⟩
    intro j hj
    simp [loop_entry] at hj

/-! ## The room of the device and the close at exit -/

theorem loop_body_next_room (rs : Nat) (s s1 : Loop) (h : loop_body rs s = .next s1) :
    s1.file3.room = s.file3.room := by
  unfold loop_body at h
  simp only at h
  split at h
  · cases h
  split at h
  · cases h
  split at h
  · cases h
  split at h
  · cases h
  split at h
  · cases h
  split at h
  · cases h
  · injection h with h
    subst h
    exact fwrite_room _ _ _

theorem loop_body_break_room (rs : Nat) (s : Loop) (w : World) (o : OFILE)
    (h : loop_body rs s = .exit .success w) (ho : w.file3 = some o) :
    o.room = s.file3.room := by
  unfold loop_body at h
  simp only at h
  split at h
  · cases h
  split at h
  · cases h
  split at h
  · cases h
  split at h
  · cases h
  split at h
  · cases h
  split at h
  · injection h with _ h
    subst h
    simp only [Loop.world, Option.some.injEq] at ho
    rw [← ho]
    exact fwrite_room _ _ _
  · cases h

/-- Closing a stream whose bytes all fit on the device leaves them all in the
file. -/
theorem fclose_out_fits (o : OFILE) (hfit : ∀ r, o.room = some r → o.out.length ≤ r) :
    fclose_out o = o.out := by
  unfold fclose_out
  cases hr : o.room with
  | none => rfl
  | some r => exact List.take_of_length_le (hfit r hr)
/-! ## The claims -/

/-- C1: two inputs of equal length without a conflicting position, delivered
in full by streams that do not fault, with an output that takes every byte: for
every read size of at least one byte the run ends with success and the output
holds `C` of the same length with, at every position, `C[i] = A[i]` when
`B[i] = 0`, `C[i] = B[i]` when `A[i] = 0`, `C[i] = A[i]` when the two bytes are
equal, and `C[i]` the bitwise OR of the two bytes, which is what the code
stores. -/
theorem merge_without_conflict (rs fuel : Nat) (p a b c : String) (A B : List Byte)
    (hrs : 0 < rs) (hflag : a ∉ info_flags) (hlen : A.length = B.length)
    (hfuel : A.length ≤ fuel) (hnc : ∀ i, i < A.length → ¬ conflict_at A B i) :
    ∃ w C, main rs fuel [p, a, b, c] (plain_env A B) = some (.success, w) ∧
      w.sink = some C ∧ C.length = A.length ∧
      ∀ i, i < A.length →
        (B.getD i 0 = 0 → C.getD i 0 = A.getD i 0) ∧
        (A.getD i 0 = 0 → C.getD i 0 = B.getD i 0) ∧
        (A.getD i 0 = B.getD i 0 → C.getD i 0 = A.getD i 0) ∧
        C.getD i 0 = A.getD i 0 ||| B.getD i 0 := by
  obtain ⟨w, hw, hs, _⟩ := main_plain_ok rs fuel p a b c A B hrs hflag hlen hfuel hnc
  refine ⟨w, or_bytes A B, hw, hs, or_bytes_length A B hlen, ?_⟩
  intro i hi
  have hg := or_bytes_getD A B i hi (by omega)
  refine ⟨fun h0 => ?_, fun h0 => ?_, fun he => ?_, hg⟩
  · rw [hg, h0, byte_or_zero]
  · rw [hg, h0, byte_zero_or]
  · rw [hg, ← he, byte_or_self]

theorem merge_without_conflict_witness :
    ∃ w C, main 2 4 ["zeromerge", "a", "b", "out"] (plain_env [1, 0, 3, 0] [0, 2, 3, 0]) =
        some (.success, w) ∧
      w.sink = some C ∧ C.length = ([1, 0, 3, 0] : List Byte).length ∧
      ∀ i, i < ([1, 0, 3, 0] : List Byte).length →
        (([0, 2, 3, 0] : List Byte).getD i 0 = 0 →
          C.getD i 0 = ([1, 0, 3, 0] : List Byte).getD i 0) ∧
        (([1, 0, 3, 0] : List Byte).getD i 0 = 0 →
          C.getD i 0 = ([0, 2, 3, 0] : List Byte).getD i 0) ∧
        (([1, 0, 3, 0] : List Byte).getD i 0 = ([0, 2, 3, 0] : List Byte).getD i 0 →
          C.getD i 0 = ([1, 0, 3, 0] : List Byte).getD i 0) ∧
        C.getD i 0 =
          ([1, 0, 3, 0] : List Byte).getD i 0 ||| ([0, 2, 3, 0] : List Byte).getD i 0 :=
  merge_without_conflict 2 4 "zeromerge" "a" "b" "out" [1, 0, 3, 0] [0, 2, 3, 0]
    (by decide) (by decide) (by decide) (by decide) (by decide)

/-- C2: two inputs of equal length with a conflict at some position `i` (both
bytes non-zero and different), wherever `i` lies and whatever bits the two
bytes share: for every read size of at least one byte the run ends at
`error_different`, whose exit status is not zero. -/
theorem merge_with_conflict (rs fuel : Nat) (p a b c : String) (A B : List Byte) (i : Nat)
    (hrs : 0 < rs) (hflag : a ∉ info_flags) (hlen : A.length = B.length)
    (hfuel : A.length ≤ fuel) (hi : i < A.length)
    (hc : A.getD i 0 ≠ 0 ∧ B.getD i 0 ≠ 0 ∧ A.getD i 0 ≠ B.getD i 0) :
    (∃ w, main rs fuel [p, a, b, c] (plain_env A B) = some (.error_different, w)) ∧
      Exit.code .error_different ≠ 0 :=
  ⟨main_plain_conflict rs fuel p a b c A B hrs hflag hlen hfuel ⟨i, hi, hc⟩, by decide⟩

theorem merge_with_conflict_witness :
    (∃ w, main 2 4 ["zeromerge", "a", "b", "out"] (plain_env [0, 7, 1, 0] [9, 7, 3, 0]) =
        some (.error_different, w)) ∧
      Exit.code .error_different ≠ 0 :=
  merge_with_conflict 2 4 "zeromerge" "a" "b" "out" [0, 7, 1, 0] [9, 7, 3, 0] 2
    (by decide) (by decide) (by decide) (by decide) (by decide) (by decide)

/-- C3: the merge is symmetric in its two inputs: for equal length and no
conflicting position, the run on `(A, B)` and the run on `(B, A)` both end with
success and leave the same bytes in the output. -/
theorem merge_symmetric (rs fuel : Nat) (p a b c : String) (A B : List Byte)
    (hrs : 0 < rs) (hflag : a ∉ info_flags) (hlen : A.length = B.length)
    (hfuel : A.length ≤ fuel) (hnc : ∀ i, i < A.length → ¬ conflict_at A B i) :
    ∃ w1 w2 C, main rs fuel [p, a, b, c] (plain_env A B) = some (.success, w1) ∧
      main rs fuel [p, a, b, c] (plain_env B A) = some (.success, w2) ∧
      w1.sink = some C ∧ w2.sink = some C := by
  obtain ⟨w1, hw1, hs1, _⟩ := main_plain_ok rs fuel p a b c A B hrs hflag hlen hfuel hnc
  obtain ⟨w2, hw2, hs2, _⟩ := main_plain_ok rs fuel p a b c B A hrs hflag hlen.symm
    (by omega) (fun i hi h => hnc i (by omega) (conflict_at_symm A B i h))
  exact ⟨w1, w2, or_bytes A B, hw1, hw2, hs1, by rw [hs2, or_bytes_comm]⟩

theorem merge_symmetric_witness :
    ∃ w1 w2 C,
      main 2 4 ["zeromerge", "a", "b", "out"] (plain_env [1, 0, 3, 0] [0, 2, 3, 0]) =
        some (.success, w1) ∧
      main 2 4 ["zeromerge", "a", "b", "out"] (plain_env [0, 2, 3, 0] [1, 0, 3, 0]) =
        some (.success, w2) ∧
      w1.sink = some C ∧ w2.sink = some C :=
  merge_symmetric 2 4 "zeromerge" "a" "b" "out" [1, 0, 3, 0] [0, 2, 3, 0]
    (by decide) (by decide) (by decide) (by decide) (by decide)

/-- C5: a zero-filled input is an identity of the merge: merging `A` with the
all-zero sequence of its length, as second or as first input, ends with success
and the output is `A`. -/
theorem merge_zero_identity (rs fuel : Nat) (p a b c : String) (A : List Byte)
    (hrs : 0 < rs) (hflag : a ∉ info_flags) (hfuel : A.length ≤ fuel) :
    (∃ w, main rs fuel [p, a, b, c] (plain_env A (List.replicate A.length 0)) =
        some (.success, w) ∧ w.sink = some A) ∧
    (∃ w, main rs fuel [p, a, b, c] (plain_env (List.replicate A.length 0) A) =
        some (.success, w) ∧ w.sink = some A) := by
  constructor
  · obtain ⟨w, hw, hs, _⟩ := main_plain_ok rs fuel p a b c A (List.replicate A.length 0) hrs
      hflag (by simp) hfuel (fun i _ => no_conflict_zeros A A.length i)
    exact ⟨w, hw, by rw [hs, or_bytes_zeros]⟩
  · obtain ⟨w, hw, hs, _⟩ := main_plain_ok rs fuel p a b c (List.replicate A.length 0) A hrs
      hflag (by simp) (by simpa using hfuel)
      (fun i _ h => no_conflict_zeros A A.length i (conflict_at_symm _ _ i h))
    exact ⟨w, hw, by rw [hs, or_bytes_comm, or_bytes_zeros]⟩

theorem merge_zero_identity_witness :
    (∃ w, main 2 3 ["zeromerge", "a", "b", "out"]
        (plain_env [255, 0, 7] (List.replicate ([255, 0, 7] : List Byte).length 0)) =
        some (.success, w) ∧ w.sink = some [255, 0, 7]) ∧
    (∃ w, main 2 3 ["zeromerge", "a", "b", "out"]
        (plain_env (List.replicate ([255, 0, 7] : List Byte).length 0) [255, 0, 7]) =
        some (.success, w) ∧ w.sink = some [255, 0, 7]) :=
  merge_zero_identity 2 3 "zeromerge" "a" "b" "out" [255, 0, 7]
    (by decide) (by decide) (by decide)

/-- C6: the merge is idempotent: merging `A` with itself ends with success
(equal non-zero bytes are no conflict) and the output is `A`. -/
theorem merge_idempotent (rs fuel : Nat) (p a b c : String) (A : List Byte)
    (hrs : 0 < rs) (hflag : a ∉ info_flags) (hfuel : A.length ≤ fuel) :
    ∃ w, main rs fuel [p, a, b, c] (plain_env A A) = some (.success, w) ∧
      w.sink = some A := by
  obtain ⟨w, hw, hs, _⟩ := main_plain_ok rs fuel p a b c A A hrs hflag rfl hfuel
    (fun i _ => no_conflict_self A i)
  exact ⟨w, hw, by rw [hs, or_bytes_self]⟩

theorem merge_idempotent_witness :
    ∃ w, main 2 3 ["zeromerge", "a", "b", "out"] (plain_env [170, 0, 187] [170, 0, 187]) =
        some (.success, w) ∧ w.sink = some [170, 0, 187] :=
  merge_idempotent 2 3 "zeromerge" "a" "b" "out" [170, 0, 187]
    (by decide) (by decide) (by decide)

/-- C4: when the two sizes found by `stat` differ, the run ends at
`error_file_sizes` (exit status not zero) before the output is opened and
before any read: the output handle is still `NULL`, both inputs are at position
0 with all their bytes undelivered, and no pass through the loop has begun. -/
theorem length_mismatch (rs fuel : Nat) (p a b c : String) (env : Env) (s1 s2 : Source)
    (n1 n2 : Int) (hflag : a ∉ info_flags)
    (h1 : env.open1 = some s1) (h2 : env.open2 = some s2)
    (hs1 : env.stat1 = some n1) (hs2 : env.stat2 = some n2) (hne : n1 ≠ n2) :
    main rs fuel [p, a, b, c] env =
      some (.error_file_sizes,
        { file1 := some ⟨s1.data, 0, s1.fault, false, false⟩,
          file2 := some ⟨s2.data, 0, s2.fault, false, false⟩,
          file3 := none, iters := 0 }) ∧
    Exit.code .error_file_sizes ≠ 0 := by
  simp only [info_flags, List.mem_cons, List.mem_singleton, not_or, List.not_mem_nil,
    or_false] at hflag
  obtain ⟨f1, f2, f3, f4, f5⟩ := hflag
  refine ⟨?_, by decide⟩
  simp [main, argv1, f1, f2, f3, f4, f5, h1, h2, hs1, hs2, hne, fopen_r, World.init]

theorem length_mismatch_witness :
    main READSIZE 0 ["zeromerge", "a", "b", "out"]
        { open1 := some ⟨[1, 2, 3], none⟩, open2 := some ⟨[1, 2], none⟩,
          stat1 := some 3, stat2 := some 2, open3 := some none } =
      some (.error_file_sizes,
        { file1 := some ⟨[1, 2, 3], 0, none, false, false⟩,
          file2 := some ⟨[1, 2], 0, none, false, false⟩,
          file3 := none, iters := 0 }) ∧
    Exit.code .error_file_sizes ≠ 0 :=
  length_mismatch READSIZE 0 "zeromerge" "a" "b" "out"
    { open1 := some ⟨[1, 2, 3], none⟩, open2 := some ⟨[1, 2], none⟩,
      stat1 := some 3, stat2 := some 2, open3 := some none }
    ⟨[1, 2, 3], none⟩ ⟨[1, 2], none⟩ 3 2 (by decide) rfl rfl rfl rfl (by decide)

/-- C8: the result does not depend on the read size: for every read size of at
least one byte and all inputs of equal length, the chunked run succeeds exactly
when the one-shot merge of the specification does, and then writes its output
(otherwise it ends at `error_different`); and for length `rs + 1`, all zero but
for a last byte 1 in the first input, the run takes two passes and the output
is the first input. -/
theorem chunk_size_independent (rs fuel : Nat) (p a b c : String) (A B : List Byte)
    (hrs : 0 < rs) (hflag : a ∉ info_flags) (hlen : A.length = B.length)
    (hfuel : A.length ≤ fuel) :
    (match merge_spec A B with
      | some C => ∃ w, main rs fuel [p, a, b, c] (plain_env A B) = some (.success, w) ∧
          w.sink = some C
      | none => ∃ w, main rs fuel [p, a, b, c] (plain_env A B) = some (.error_different, w)) ∧
    ∃ w, main rs (rs + 1) [p, a, b, c]
        (plain_env (List.replicate rs 0 ++ [1]) (List.replicate (rs + 1) 0)) =
        some (.success, w) ∧
      w.sink = some (List.replicate rs 0 ++ [1]) ∧ w.iters = 2 := by
  constructor
  · by_cases hc : ∃ i, i < A.length ∧ conflict_at A B i
    · rw [merge_spec_conflict A B hc]
      exact main_plain_conflict rs fuel p a b c A B hrs hflag hlen hfuel hc
    · have hnc : ∀ i, i < A.length → ¬ conflict_at A B i := fun i hi h => hc ⟨i, hi, h⟩
      rw [merge_spec_ok A B hlen hnc]
      obtain ⟨w, hw, hs, _⟩ := main_plain_ok rs fuel p a b c A B hrs hflag hlen hfuel hnc
      exact ⟨w, hw, hs⟩
  · have hl : (List.replicate rs (0 : Byte) ++ [1]).length = rs + 1 := by simp
    obtain ⟨w, hw, hs, hi⟩ := main_plain_ok rs (rs + 1) p a b c
      (List.replicate rs 0 ++ [1]) (List.replicate (rs + 1) 0) hrs hflag (by simp)
      (by rw [hl]) (fun i _ => no_conflict_zeros _ _ i)
    refine ⟨w, hw, ?_, ?_⟩
    · rw [hs]
      have h := or_bytes_zeros (List.replicate rs (0 : Byte) ++ [1])
      rw [hl] at h
      rw [h]
    · rw [hi, hl, passes_step rs (rs + 1) hrs (by omega)]
      have e : rs + 1 - rs = 1 := by omega
      rw [e, passes_short rs 1 (by omega) hrs]

theorem chunk_size_independent_witness :
    (match merge_spec [0, 0, 1] [0, 0, 0] with
      | some C => ∃ w, main 2 3 ["zeromerge", "a", "b", "out"]
          (plain_env [0, 0, 1] [0, 0, 0]) = some (.success, w) ∧ w.sink = some C
      | none => ∃ w, main 2 3 ["zeromerge", "a", "b", "out"]
          (plain_env [0, 0, 1] [0, 0, 0]) = some (.error_different, w)) ∧
    ∃ w, main 2 (2 + 1) ["zeromerge", "a", "b", "out"]
        (plain_env (List.replicate 2 0 ++ [1]) (List.replicate (2 + 1) 0)) =
        some (.success, w) ∧
      w.sink = some (List.replicate 2 0 ++ [1]) ∧ w.iters = 2 :=
  chunk_size_independent 2 3 "zeromerge" "a" "b" "out" [0, 0, 1] [0, 0, 0]
    (by decide) (by decide) (by decide) (by decide)

/-- C7: when a run ends at `error_different` in pass `k` of the loop (counted
from 0), whatever the streams and the room on the output, the output holds
exactly the byte-wise OR of the first `k * rs` bytes of the two inputs, these
`k * rs` bytes are free of conflicts, and the conflict lies in chunk `k`:
nothing of that chunk was written. -/
theorem conflict_writes_nothing (rs fuel : Nat) (argv : List String) (env : Env)
    (s1 s2 : Source) (w : World) (h1 : env.open1 = some s1) (h2 : env.open2 = some s2)
    (h : main rs fuel argv env = some (.error_different, w)) :
    w.sink = some (or_bytes (s1.data.take (w.iters * rs)) (s2.data.take (w.iters * rs))) ∧
    (or_bytes (s1.data.take (w.iters * rs)) (s2.data.take (w.iters * rs))).length =
      w.iters * rs ∧
    (∀ j, j < w.iters * rs → ¬ conflict_at s1.data s2.data j) ∧
    ∃ j, w.iters * rs ≤ j ∧ j < w.iters * rs + rs ∧ conflict_at s1.data s2.data j := by
  obtain ⟨t1, t2, n, room, ho1, ho2, _, _, _, hl⟩ :=
    main_loop_exit rs fuel argv env _ w (Or.inr rfl) h
  rw [h1] at ho1
  rw [h2] at ho2
  cases ho1
  cases ho2
  refine main_loop_rule rs (merged_so_far rs s1.data s2.data)
    (fun e v => e = .error_different →
      v.sink = some (or_bytes (s1.data.take (v.iters * rs)) (s2.data.take (v.iters * rs))) ∧
      (or_bytes (s1.data.take (v.iters * rs)) (s2.data.take (v.iters * rs))).length =
        v.iters * rs ∧
      (∀ j, j < v.iters * rs → ¬ conflict_at s1.data s2.data j) ∧
      ∃ j, v.iters * rs ≤ j ∧ j < v.iters * rs + rs ∧ conflict_at s1.data s2.data j)
    (fun s t hI _ hb => merged_so_far_next rs _ _ s t hI hb) ?_ ?_ fuel _ _ w ?_ hl rfl
  · intro s e v hI _ hb he
    subst he
    obtain ⟨hd1, hd2, hout, hA, hB, hnc⟩ := hI
    obtain ⟨hf3, hit, j, hj, hc⟩ := loop_body_exit_different rs s v hb
    rw [hit]
    refine ⟨by simp [World.sink, hf3, hout], ?_, hnc, s.iters * rs + j, by omega, by omega, ?_⟩
    · rw [or_bytes_length _ _ (by simp only [List.length_take]; omega), List.length_take]
      omega
    · rw [hd1, hd2, conflict_at_drop] at hc
      exact hc
  · intro s _ _ he
    cases he
  · refine ⟨by simp, by simp, by simp [or_bytes], by simp, by simp, ?_⟩
    intro j hj
    simp at hj

theorem conflict_writes_nothing_witness :
    main 2 5 ["zeromerge", "a", "b", "out"]
        { open1 := some ⟨[1, 2, 3, 4, 5], none⟩, open2 := some ⟨[1, 2, 0, 9, 0], none⟩,
          stat1 := some 5, stat2 := some 5, open3 := some none } =
      some (.error_different,
        { file1 := some ⟨[5], 4, none, false, false⟩,
          file2 := some ⟨[0], 4, none, false, false⟩,
          file3 := some ⟨[1, 2], none⟩, iters := 1 }) ∧
    ({ file1 := some ⟨[5], 4, none, false, false⟩, file2 := some ⟨[0], 4, none, false, false⟩,
       file3 := some ⟨[1, 2], none⟩, iters := 1 } : World).sink =
      some (or_bytes (([1, 2, 3, 4, 5] : List Byte).take (1 * 2))
        (([1, 2, 0, 9, 0] : List Byte).take (1 * 2))) ∧
    (or_bytes (([1, 2, 3, 4, 5] : List Byte).take (1 * 2))
        (([1, 2, 0, 9, 0] : List Byte).take (1 * 2))).length = 1 * 2 ∧
    (∀ j, j < 1 * 2 → ¬ conflict_at [1, 2, 3, 4, 5] [1, 2, 0, 9, 0] j) ∧
    ∃ j, 1 * 2 ≤ j ∧ j < 1 * 2 + 2 ∧ conflict_at [1, 2, 3, 4, 5] [1, 2, 0, 9, 0] j :=
  ⟨by decide,
   conflict_writes_nothing 2 5 ["zeromerge", "a", "b", "out"]
    { open1 := some ⟨[1, 2, 3, 4, 5], none⟩, open2 := some ⟨[1, 2, 0, 9, 0], none⟩,
      stat1 := some 5, stat2 := some 5, open3 := some none }
    ⟨[1, 2, 3, 4, 5], none⟩ ⟨[1, 2, 0, 9, 0], none⟩
    { file1 := some ⟨[5], 4, none, false, false⟩, file2 := some ⟨[0], 4, none, false, false⟩,
      file3 := some ⟨[1, 2], none⟩, iters := 1 }
    rfl rfl (by decide)⟩

/-- C9, as amended: when a read error has occurred on either input in a pass
through the loop and the two reads returned the same number of bytes, the run
ends at the read-error label of the input that faulted (the first input when
both did); when the two reads returned different numbers of bytes, the run ends
at `error_short_read`.  Nothing is written in that pass either way. -/
theorem read_error_reported (rs fuel : Nat) (s : Loop) (hrem : 0 < s.remain)
    (herr : ferror (fread rs s.file1).2 = true ∨ ferror (fread rs s.file2).2 = true) :
    ((fread rs s.file1).1.length = (fread rs s.file2).1.length →
      ∃ w, main_loop rs (fuel + 1) s =
          some (if ferror (fread rs s.file1).2 = true then .error_file1 else .error_file2, w) ∧
        w.file3 = some s.file3) ∧
    ((fread rs s.file1).1.length ≠ (fread rs s.file2).1.length →
      ∃ w, main_loop rs (fuel + 1) s = some (.error_short_read, w) ∧
        w.file3 = some s.file3) := by
  constructor
  · intro hlen
    unfold main_loop loop_body
    simp only [if_pos hrem, hlen, ne_eq, not_true_eq_false, if_false]
    by_cases he1 : ferror (fread rs s.file1).2 = true
    · simp only [he1, if_true]
      exact ⟨_, rfl, rfl⟩
    · have he2 : ferror (fread rs s.file2).2 = true := herr.resolve_left he1
      simp only [he1, he2, if_true, if_false]
      exact ⟨_, rfl, rfl⟩
  · intro hlen
    unfold main_loop loop_body
    simp only [if_pos hrem, hlen, ne_eq, not_false_eq_true, if_true]
    exact ⟨_, rfl, rfl⟩

theorem read_error_reported_witness :
    ((fread 4 ⟨[1, 2, 3], 0, none, false, false⟩).1.length =
        (fread 4 ⟨[1, 2, 3], 0, some 3, false, false⟩).1.length →
      ∃ w, main_loop 4 (0 + 1)
            { file1 := ⟨[1, 2, 3], 0, none, false, false⟩,
              file2 := ⟨[1, 2, 3], 0, some 3, false, false⟩,
              file3 := ⟨[], none⟩, remain := 3, iters := 0 } =
          some (if ferror (fread 4 ⟨[1, 2, 3], 0, none, false, false⟩).2 = true
            then .error_file1 else .error_file2, w) ∧
        w.file3 = some ⟨[], none⟩) ∧
    ((fread 4 ⟨[1, 2, 3], 0, none, false, false⟩).1.length ≠
        (fread 4 ⟨[1, 2, 3], 0, some 3, false, false⟩).1.length →
      ∃ w, main_loop 4 (0 + 1)
            { file1 := ⟨[1, 2, 3], 0, none, false, false⟩,
              file2 := ⟨[1, 2, 3], 0, some 3, false, false⟩,
              file3 := ⟨[], none⟩, remain := 3, iters := 0 } =
          some (.error_short_read, w) ∧
        w.file3 = some ⟨[], none⟩) :=
  read_error_reported 4 0
    { file1 := ⟨[1, 2, 3], 0, none, false, false⟩,
      file2 := ⟨[1, 2, 3], 0, some 3, false, false⟩,
      file3 := ⟨[], none⟩, remain := 3, iters := 0 }
    (by decide) (by decide)

/-- C9 as stated fails: the device of the first input faults after one byte,
the second input delivers its three bytes, and the run ends at
`error_short_read`, not at `error_file1`, with the error indicator of the first
stream set. -/
theorem read_error_counterexample :
    zeromerge 3 ["zeromerge", "a", "b", "out"]
        { open1 := some ⟨[1, 2, 3], some 1⟩, open2 := some ⟨[1, 2, 3], none⟩,
          stat1 := some 3, stat2 := some 3, open3 := some none } =
      some (.error_short_read,
        { file1 := some ⟨[2, 3], 1, some 0, false, true⟩,
          file2 := some ⟨[], 3, none, true, false⟩,
          file3 := some ⟨[], none⟩, iters := 0 }) ∧
    ferror ⟨[2, 3], 1, some 0, false, true⟩ = true := by
  decide

/-- C10, as amended: on every successful run in which each input stream holds
exactly as many bytes as the size found by the length check, the number of
bytes written to the output stream equals that size; and when the device has
room for that many bytes, the output file left at exit holds exactly these
bytes, so it has the same length as the inputs. -/
theorem output_length (rs fuel : Nat) (argv : List String) (env : Env) (s1 s2 : Source)
    (n : Int) (room : Option Nat) (w : World)
    (h1 : env.open1 = some s1) (h2 : env.open2 = some s2)
    (hs : env.stat1 = some n) (h3 : env.open3 = some room)
    (hd1 : (s1.data.length : Int) = n) (hd2 : (s2.data.length : Int) = n)
    (h : main rs fuel argv env = some (.success, w)) :
    ∃ C, w.sink = some C ∧ (C.length : Int) = n ∧
      ((∀ r, room = some r → n ≤ (r : Int)) → clean_exit w = some C) := by
  obtain ⟨t1, t2, m, room2, ho1, ho2, hm, _, ho3, hl⟩ :=
    main_loop_exit rs fuel argv env _ w (Or.inl rfl) h
  rw [h1] at ho1
  rw [h2] at ho2
  rw [hs] at hm
  rw [h3] at ho3
  cases ho1
  cases ho2
  cases hm
  cases ho3
  have hQ : ∀ (o : OFILE), (o.out.length : Int) = n → o.room = room →
      ∃ C, (some o).map (fun f => f.out) = some C ∧ (C.length : Int) = n ∧
        ((∀ r, room = some r → n ≤ (r : Int)) → (some o).map fclose_out = some C) := by
    intro o hlen hroom
    refine ⟨o.out, rfl, hlen, fun hfit => ?_⟩
    have hf := fclose_out_fits o (fun r hr => by
      have := hfit r (hroom ▸ hr)
      omega)
    simp only [Option.map_some', hf]
  refine main_loop_rule rs (fun s => in_step n s ∧ s.file3.room = room)
    (fun e v => e = .success → ∃ C, v.sink = some C ∧ (C.length : Int) = n ∧
      ((∀ r, room = some r → n ≤ (r : Int)) → clean_exit v = some C))
    (fun s t hI _ hb =>
      ⟨in_step_next rs n s t hI.1 hb, (loop_body_next_room rs s t hb).trans hI.2⟩)
    ?_ ?_ fuel _ _ w ?_ hl rfl
  · intro s e v hI _ hb he
    subst he
    obtain ⟨C, hC, hlen⟩ := in_step_success rs n s v hI.1 hb
    cases hv : v.file3 with
    | none => simp [World.sink, hv] at hC
    | some o =>
      have ho : o.out = C := by simpa [World.sink, hv] using hC
      have hroom := (loop_body_break_room rs s v o hb hv).trans hI.2
      unfold World.sink clean_exit
      rw [hv]
      exact hQ o (by rw [ho]; exact hlen) hroom
  · intro s hI hr _
    obtain ⟨⟨_, _, hl1, _, hout⟩, hroom⟩ := hI
    exact hQ s.file3 (by omega) hroom
  · exact ⟨⟨rfl, rfl, hd1, hd2, by simp⟩, rfl⟩

theorem output_length_witness :
    main 2 3 ["zeromerge", "a", "b", "out"]
        { open1 := some ⟨[1, 0, 3], none⟩, open2 := some ⟨[0, 2, 3], none⟩,
          stat1 := some 3, stat2 := some 3, open3 := some (some 5) } =
      some (.success,
        { file1 := some ⟨[], 3, none, true, false⟩, file2 := some ⟨[], 3, none, true, false⟩,
          file3 := some ⟨[1, 2, 3], some 5⟩, iters := 2 }) ∧
    ∃ C, ({ file1 := some ⟨[], 3, none, true, false⟩, file2 := some ⟨[], 3, none, true, false⟩,
            file3 := some ⟨[1, 2, 3], some 5⟩, iters := 2 } : World).sink = some C ∧
      (C.length : Int) = 3 ∧
      ((∀ r : Nat, (some 5 : Option Nat) = some r → (3 : Int) ≤ (r : Int)) →
        clean_exit { file1 := some ⟨[], 3, none, true, false⟩,
                     file2 := some ⟨[], 3, none, true, false⟩,
                     file3 := some ⟨[1, 2, 3], some 5⟩, iters := 2 } = some C) :=
  ⟨by decide,
   output_length 2 3 ["zeromerge", "a", "b", "out"]
    { open1 := some ⟨[1, 0, 3], none⟩, open2 := some ⟨[0, 2, 3], none⟩,
      stat1 := some 3, stat2 := some 3, open3 := some (some 5) }
    ⟨[1, 0, 3], none⟩ ⟨[0, 2, 3], none⟩ 3 (some 5)
    { file1 := some ⟨[], 3, none, true, false⟩, file2 := some ⟨[], 3, none, true, false⟩,
      file3 := some ⟨[1, 2, 3], some 5⟩, iters := 2 }
    rfl rfl rfl rfl (by decide) (by decide) (by decide)⟩

/-- C10 as stated fails, in two ways.  First, `stat` finds 3 bytes for both
inputs, but both streams are at their end at the first read (as when the output
path is also the path of both inputs, which opening it for writing has
emptied): the run ends with success and nothing was written.  Second, two
inputs of 8 bytes and a device with room for 4: `fwrite` takes the 8 bytes into
the stdio buffer and returns 8, the run ends with success, and the close at
exit, whose result is dropped, leaves an output file of 4 bytes. -/
theorem output_length_counterexample :
    (zeromerge 3 ["zeromerge", "a", "a", "a"]
        { open1 := some ⟨[], none⟩, open2 := some ⟨[], none⟩,
          stat1 := some 3, stat2 := some 3, open3 := some none } =
      some (.success,
        { file1 := some ⟨[], 0, none, true, false⟩, file2 := some ⟨[], 0, none, true, false⟩,
          file3 := some ⟨[], none⟩, iters := 1 }) ∧
     (([] : List Byte).length : Int) ≠ 3) ∧
    (zeromerge 8 ["zeromerge", "a", "b", "out"]
        { open1 := some ⟨[1, 2, 3, 4, 5, 6, 7, 8], none⟩,
          open2 := some ⟨[0, 0, 0, 0, 0, 0, 0, 0], none⟩,
          stat1 := some 8, stat2 := some 8, open3 := some (some 4) } =
      some (.success,
        { file1 := some ⟨[], 8, none, true, false⟩, file2 := some ⟨[], 8, none, true, false⟩,
          file3 := some ⟨[1, 2, 3, 4, 5, 6, 7, 8], some 4⟩, iters := 1 }) ∧
     clean_exit
        { file1 := some ⟨[], 8, none, true, false⟩, file2 := some ⟨[], 8, none, true, false⟩,
          file3 := some ⟨[1, 2, 3, 4, 5, 6, 7, 8], some 4⟩, iters := 1 } =
      some [1, 2, 3, 4]) := by
  decide

/-- C11: with a number of arguments after the program name other than three,
and a first argument (if any) that is none of `-h`, `--help`, `-v`, `-V`,
`--version`, the program prints the usage line and exits with the failure
status, whatever the file system holds: no handle is ever opened and no pass
through the loop is made. -/
theorem wrong_argument_count (rs fuel : Nat) (p : String) (args : List String) (env : Env)
    (hn : args.length ≠ 3) (hflag : ∀ a, args.head? = some a → a ∉ info_flags) :
    main rs fuel (p :: args) env =
      some (.error_argcount, { file1 := none, file2 := none, file3 := none, iters := 0 }) ∧
    Exit.prints .error_argcount = [.usage] ∧ Exit.code .error_argcount ≠ 0 := by
  refine ⟨?_, rfl, by decide⟩
  have hlen : (p :: args).length ≠ 4 := by simpa using hn
  cases args with
  | nil => simp [main, argv1, World.init]
  | cons a rest =>
    have ha := hflag a rfl
    simp only [info_flags, List.mem_cons, List.mem_singleton, not_or, List.not_mem_nil,
      or_false] at ha
    obtain ⟨f1, f2, f3, f4, f5⟩ := ha
    simp only [List.length_cons] at hlen
    simp [main, argv1, f1, f2, f3, f4, f5, World.init]
    omega

theorem wrong_argument_count_witness :
    main READSIZE 0 ("zeromerge" :: ["a"])
        { open1 := some ⟨[1], none⟩, open2 := some ⟨[2], none⟩,
          stat1 := some 1, stat2 := some 1, open3 := some none } =
      some (.error_argcount, { file1 := none, file2 := none, file3 := none, iters := 0 }) ∧
    Exit.prints .error_argcount = [.usage] ∧ Exit.code .error_argcount ≠ 0 :=
  wrong_argument_count READSIZE 0 "zeromerge" ["a"]
    { open1 := some ⟨[1], none⟩, open2 := some ⟨[2], none⟩,
      stat1 := some 1, stat2 := some 1, open3 := some none }
    (by decide) (by decide)

/-- C12, as amended: within a chunk that holds at least one conflicting
position, the inner loop, which visits the indices from the last to the first,
stops at the last (highest) conflicting index: the index at which the scan
jumps to `error_different` is the maximum conflicting index of the chunk. -/
theorem scan_stops_at_last_conflict (buf1 buf2 : List Byte) (n : Nat)
    (h : ∃ j, j < n ∧ conflict_at buf1 buf2 j) :
    ∃ e, merge_block buf2 n buf1 = .error e ∧ e < n ∧ conflict_at buf1 buf2 e ∧
      ∀ j, j < n → conflict_at buf1 buf2 j → j ≤ e := by
  obtain ⟨e, he, hen, hce, hmax⟩ := merge_block_conflict buf2 n buf1 h
  refine ⟨e, he, hen, hce, ?_⟩
  intro j hj hcj
  by_contra hlt
  exact hmax j (by omega) hj hcj

theorem scan_stops_at_last_conflict_witness :
    ∃ e, merge_block [3, 0, 4, 0] 4 [1, 0, 2, 0] = .error e ∧ e < 4 ∧
      conflict_at [1, 0, 2, 0] [3, 0, 4, 0] e ∧
      ∀ j, j < 4 → conflict_at [1, 0, 2, 0] [3, 0, 4, 0] j → j ≤ e :=
  scan_stops_at_last_conflict [1, 0, 2, 0] [3, 0, 4, 0] 4 ⟨0, by decide, by decide⟩

/-- C12 as stated fails: in the chunk `01 00 02 00` against `03 00 04 00` the
positions 0 and 2 conflict, and the scan stops at index 2, not at the lowest
conflicting index 0. -/
theorem scan_counterexample :
    merge_block [3, 0, 4, 0] 4 [1, 0, 2, 0] = .error 2 ∧
    conflict_at [1, 0, 2, 0] [3, 0, 4, 0] 0 :=
  ⟨rfl, by decide⟩

/-- C16: when `stat` finds length 0 for both inputs, the run ends with success
without a pass through the loop and without a read (both inputs are still at
position 0 with clear indicators, whatever fuel is given), and the output has
been created and is empty. -/
theorem empty_inputs (rs fuel : Nat) (p a b c : String) (env : Env) (s1 s2 : Source)
    (room : Option Nat) (hflag : a ∉ info_flags)
    (h1 : env.open1 = some s1) (h2 : env.open2 = some s2)
    (hs1 : env.stat1 = some 0) (hs2 : env.stat2 = some 0) (h3 : env.open3 = some room) :
    main rs fuel [p, a, b, c] env =
      some (.success,
        { file1 := some ⟨s1.data, 0, s1.fault, false, false⟩,
          file2 := some ⟨s2.data, 0, s2.fault, false, false⟩,
          file3 := some ⟨[], room⟩, iters := 0 }) ∧
    World.sink
      { file1 := some ⟨s1.data, 0, s1.fault, false, false⟩,
        file2 := some ⟨s2.data, 0, s2.fault, false, false⟩,
        file3 := some ⟨[], room⟩, iters := 0 } = some [] ∧
    Exit.code .success = 0 := by
  refine ⟨?_, rfl, rfl⟩
  rw [main_opened rs fuel p a b c env s1 s2 0 room hflag h1 h2 hs1 hs2 h3]
  cases fuel <;> simp [main_loop, Loop.world]

theorem empty_inputs_witness :
    main READSIZE 0 ["zeromerge", "a", "b", "out"]
        { open1 := some ⟨[], none⟩, open2 := some ⟨[], none⟩,
          stat1 := some 0, stat2 := some 0, open3 := some none } =
      some (.success,
        { file1 := some ⟨[], 0, none, false, false⟩,
          file2 := some ⟨[], 0, none, false, false⟩,
          file3 := some ⟨[], none⟩, iters := 0 }) ∧
    World.sink
      { file1 := some ⟨[], 0, none, false, false⟩,
        file2 := some ⟨[], 0, none, false, false⟩,
        file3 := some ⟨[], none⟩, iters := 0 } = some [] ∧
    Exit.code .success = 0 :=
  empty_inputs READSIZE 0 "zeromerge" "a" "b" "out"
    { open1 := some ⟨[], none⟩, open2 := some ⟨[], none⟩,
      stat1 := some 0, stat2 := some 0, open3 := some none }
    ⟨[], none⟩ ⟨[], none⟩ none (by decide) rfl rfl rfl rfl rfl

/-- C13: the main loop terminates: with a read size of at least one byte and
fuel for `remain` passes the loop always returns a result; every pass through
the body ends at an error label, or lowers `remain` by the positive number of
bytes that both reads returned, or takes the `break` with both streams at their
end (so a pass whose reads return 0 bytes never returns to the loop condition);
and the loop ends with success exactly when, after some passes, `remain` is 0
or below at the loop condition or the next pass takes the `break`. -/
theorem loop_terminates (rs fuel : Nat) (s : Loop) (hrs : 0 < rs)
    (hfuel : s.remain ≤ (fuel : Int)) :
    (∃ e w, main_loop rs fuel s = some (e, w)) ∧
    ((∃ e w, loop_body rs s = .exit e w ∧ e.code ≠ 0) ∨
     (∃ s1, loop_body rs s = .next s1 ∧ 0 < (fread rs s.file2).1.length ∧
       (fread rs s.file1).1.length = (fread rs s.file2).1.length ∧
       s1.remain = s.remain - ((fread rs s.file2).1.length : Int)) ∨
     (∃ w, loop_body rs s = .exit .success w ∧
       feof (fread rs s.file1).2 = true ∧ feof (fread rs s.file2).2 = true)) ∧
    (∀ w, main_loop rs fuel s = some (.success, w) ↔
      ∃ k t, after_passes rs k s = some t ∧ k ≤ fuel ∧
        ((t.remain ≤ 0 ∧ w = t.world) ∨
         (0 < t.remain ∧ k < fuel ∧ loop_body rs t = .exit .success w))) :=
  ⟨main_loop_total rs hrs fuel s hfuel, loop_body_progress rs hrs s,
    main_loop_success_iff rs fuel s⟩

theorem loop_terminates_witness :
    (∃ e w, main_loop 2 3 (loop_entry ⟨[1, 0, 3], none⟩ ⟨[0, 2, 3], none⟩ none 3) =
      some (e, w)) ∧
    ((∃ e w, loop_body 2 (loop_entry ⟨[1, 0, 3], none⟩ ⟨[0, 2, 3], none⟩ none 3) =
        .exit e w ∧ e.code ≠ 0) ∨
     (∃ s1, loop_body 2 (loop_entry ⟨[1, 0, 3], none⟩ ⟨[0, 2, 3], none⟩ none 3) = .next s1 ∧
       0 < (fread 2 (loop_entry ⟨[1, 0, 3], none⟩ ⟨[0, 2, 3], none⟩ none 3).file2).1.length ∧
       (fread 2 (loop_entry ⟨[1, 0, 3], none⟩ ⟨[0, 2, 3], none⟩ none 3).file1).1.length =
         (fread 2 (loop_entry ⟨[1, 0, 3], none⟩ ⟨[0, 2, 3], none⟩ none 3).file2).1.length ∧
       s1.remain = (loop_entry ⟨[1, 0, 3], none⟩ ⟨[0, 2, 3], none⟩ none 3).remain -
         ((fread 2 (loop_entry ⟨[1, 0, 3], none⟩ ⟨[0, 2, 3], none⟩ none 3).file2).1.length
           : Int)) ∨
     (∃ w, loop_body 2 (loop_entry ⟨[1, 0, 3], none⟩ ⟨[0, 2, 3], none⟩ none 3) =
        .exit .success w ∧
       feof (fread 2 (loop_entry ⟨[1, 0, 3], none⟩ ⟨[0, 2, 3], none⟩ none 3).file1).2 = true ∧
       feof (fread 2 (loop_entry ⟨[1, 0, 3], none⟩ ⟨[0, 2, 3], none⟩ none 3).file2).2 =
         true)) ∧
    (∀ w, main_loop 2 3 (loop_entry ⟨[1, 0, 3], none⟩ ⟨[0, 2, 3], none⟩ none 3) =
        some (.success, w) ↔
      ∃ k t, after_passes 2 k (loop_entry ⟨[1, 0, 3], none⟩ ⟨[0, 2, 3], none⟩ none 3) =
          some t ∧ k ≤ 3 ∧
        ((t.remain ≤ 0 ∧ w = t.world) ∨
         (0 < t.remain ∧ k < 3 ∧ loop_body 2 t = .exit .success w))) :=
  loop_terminates 2 3 (loop_entry ⟨[1, 0, 3], none⟩ ⟨[0, 2, 3], none⟩ none 3)
    (by decide) (by decide)

/-- C14: the loop invariant.  In the state reached from the entry of the loop
after `k` passes that returned to the loop condition, the bytes in the output
and `remain` add up to the size found by `stat`, each input has been read up to
position `k * rs`, and the output is the byte-wise OR of these two prefixes,
which hold no conflict.  A further pass that completes, whether it returns to
the loop condition or takes the `break`, appends exactly as many bytes as each
of its two reads returned; after the `break` the sum with the lowered `remain`
is still the size, and the output is the byte-wise OR of the prefixes read. -/
theorem loop_invariant (rs k : Nat) (s1 s2 : Source) (room : Option Nat) (n : Int)
    (s : Loop) (h : after_passes rs k (loop_entry s1 s2 room n) = some s) :
    ((s.file3.out.length : Int) + s.remain = n ∧
      s.file1.pos = k * rs ∧ s.file2.pos = k * rs ∧
      s.file3.out = or_bytes (s1.data.take (k * rs)) (s2.data.take (k * rs)) ∧
      ∀ j, j < k * rs → ¬ conflict_at s1.data s2.data j) ∧
    (∀ t, loop_body rs s = .next t →
      t.file3.out.length = s.file3.out.length + (fread rs s.file1).1.length ∧
      (fread rs s.file1).1.length = (fread rs s.file2).1.length) ∧
    (∀ w, loop_body rs s = .exit .success w →
      ∃ o, w.file3 = some o ∧
        o.out.length = s.file3.out.length + (fread rs s.file1).1.length ∧
        (fread rs s.file1).1.length = (fread rs s.file2).1.length ∧
        (o.out.length : Int) + (s.remain - ((fread rs s.file2).1.length : Int)) = n ∧
        o.out = or_bytes (s1.data.take (k * rs + (fread rs s.file1).1.length))
          (s2.data.take (k * rs + (fread rs s.file1).1.length))) := by
  obtain ⟨hit, ⟨hsum, hp1, hp2⟩, hd1, hd2, hout, hA, hB, hnc⟩ :=
    after_passes_entry rs k s1 s2 room n s h
  rw [hit] at hp1 hp2 hd1 hd2 hout hA hB hnc
  refine ⟨⟨hsum, hp1, hp2, hout, hnc⟩, ?_, ?_⟩
  · intro t ht
    obtain ⟨hr1, _, hlen⟩ := loop_body_reads rs s (Or.inl ⟨t, ht⟩)
    obtain ⟨hl1, hl2, _, _, _, ho, _, _⟩ := loop_body_next rs s t ht
    refine ⟨?_, hlen⟩
    rw [ho, List.length_append, or_bytes_length _ _ (by simp only [List.length_take]; omega),
      hr1, fread_ok_fst]
  · intro w hw
    obtain ⟨hr1, hr2, hlen⟩ := loop_body_reads rs s (Or.inr ⟨w, hw⟩)
    obtain ⟨_, _, hlt, o, hwo, ho⟩ := loop_body_exit_success rs s w hw
    have hb1 : (fread rs s.file1).1 = (s1.data.drop (k * rs)).take rs := by
      rw [hr1, fread_ok_fst, hd1]
    have hb2 : (fread rs s.file2).1 = (s2.data.drop (k * rs)).take rs := by
      rw [hr2, fread_ok_fst, hd2]
    rw [hd1, hd2] at ho hlt
    have hol : o.out.length = s.file3.out.length + (fread rs s.file1).1.length := by
      rw [ho, List.length_append, or_bytes_length _ _ hlt, hb1]
    refine ⟨o, hwo, hol, hlen, ?_, ?_⟩
    · rw [hol, ← hlen]
      push_cast
      omega
    · rw [ho, hout, List.take_add, List.take_add s2.data, or_bytes_append _ _ _ _
        (by simp only [List.length_take]; omega)]
      congr 2
      · rw [hb1, take_length_take]
      · rw [hb1, hlt, take_length_take]

theorem loop_invariant_witness :
    after_passes 2 1 (loop_entry ⟨[1, 0, 3], none⟩ ⟨[0, 2, 3], none⟩ none 3) =
      some { file1 := ⟨[3], 2, none, false, false⟩, file2 := ⟨[3], 2, none, false, false⟩,
             file3 := ⟨[1, 2], none⟩, remain := 1, iters := 1 } ∧
    (((⟨[1, 2], none⟩ : OFILE).out.length : Int) + 1 = 3 ∧
      (2 : Nat) = 1 * 2 ∧ (2 : Nat) = 1 * 2 ∧
      (⟨[1, 2], none⟩ : OFILE).out =
        or_bytes (([1, 0, 3] : List Byte).take (1 * 2)) (([0, 2, 3] : List Byte).take (1 * 2)) ∧
      ∀ j, j < 1 * 2 → ¬ conflict_at [1, 0, 3] [0, 2, 3] j) :=
  ⟨by decide,
   (loop_invariant 2 1 ⟨[1, 0, 3], none⟩ ⟨[0, 2, 3], none⟩ none 3
      { file1 := ⟨[3], 2, none, false, false⟩, file2 := ⟨[3], 2, none, false, false⟩,
        file3 := ⟨[1, 2], none⟩, remain := 1, iters := 1 } (by decide)).1⟩

/-- C15: when, in the pass that follows `k` passes that returned to the loop
condition, the two reads return different numbers of bytes, the run ends at
`error_short_read` (exit status not zero) whether or not a read faulted: the
output is as it was before that pass, the byte-wise OR of the first `k * rs`
bytes of the two inputs, and the pass is not counted as completed. -/
theorem short_read (rs fuel k : Nat) (p a b c : String) (env : Env) (s1 s2 : Source)
    (n : Int) (room : Option Nat) (s : Loop) (hflag : a ∉ info_flags)
    (h1 : env.open1 = some s1) (h2 : env.open2 = some s2)
    (hs1 : env.stat1 = some n) (hs2 : env.stat2 = some n) (h3 : env.open3 = some room)
    (hk : after_passes rs k (loop_entry s1 s2 room n) = some s) (hfuel : k < fuel)
    (hrem : 0 < s.remain)
    (hne : (fread rs s.file1).1.length ≠ (fread rs s.file2).1.length) :
    ∃ w, main rs fuel [p, a, b, c] env = some (.error_short_read, w) ∧
      w.file3 = some s.file3 ∧ w.iters = k ∧
      w.sink = some (or_bytes (s1.data.take (k * rs)) (s2.data.take (k * rs))) ∧
      Exit.code .error_short_read ≠ 0 := by
  obtain ⟨hit, _, _, _, hout, _, _, _⟩ := after_passes_entry rs k s1 s2 room n s hk
  rw [hit] at hout
  have hb : loop_body rs s = .exit .error_short_read
      ({ s with file1 := (fread rs s.file1).2, file2 := (fread rs s.file2).2 } : Loop).world := by
    unfold loop_body
    simp only [ne_eq, hne, not_false_eq_true, if_true]
  have e : fuel = k + ((fuel - k - 1) + 1) := by omega
  refine ⟨({ s with file1 := (fread rs s.file1).2, file2 := (fread rs s.file2).2 } :
    Loop).world, ?_, rfl, hit, by rw [← hout]; rfl, by decide⟩
  rw [main_opened rs fuel p a b c env s1 s2 n room hflag h1 h2 hs1 hs2 h3, e]
  exact (main_loop_after_passes rs k _ _ s hk).trans (main_loop_exit_pass rs _ s _ _ hrem hb)

theorem short_read_witness :
    ∃ w, main 2 3 ["zeromerge", "a", "b", "out"]
        { open1 := some ⟨[1, 2, 3], none⟩, open2 := some ⟨[1, 2], none⟩,
          stat1 := some 3, stat2 := some 3, open3 := some none } =
        some (.error_short_read, w) ∧
      w.file3 = some ⟨[1, 2], none⟩ ∧ w.iters = 1 ∧
      w.sink = some (or_bytes (([1, 2, 3] : List Byte).take (1 * 2))
        (([1, 2] : List Byte).take (1 * 2))) ∧
      Exit.code .error_short_read ≠ 0 :=
  short_read 2 3 1 "zeromerge" "a" "b" "out"
    { open1 := some ⟨[1, 2, 3], none⟩, open2 := some ⟨[1, 2], none⟩,
      stat1 := some 3, stat2 := some 3, open3 := some none }
    ⟨[1, 2, 3], none⟩ ⟨[1, 2], none⟩ 3 none
    { file1 := ⟨[3], 2, none, false, false⟩, file2 := ⟨[], 2, none, false, false⟩,
      file3 := ⟨[1, 2], none⟩, remain := 1, iters := 1 }
    (by decide) rfl rfl rfl rfl rfl (by decide) (by decide) (by decide) (by decide)

end Zeromerge
